import Mathlib

/-!
Verification of the connectivity tracker (`BiMap`, src/avogadro/core/bimap.cpp)
and the transactional mutation layer (`RWMolecule` undo commands,
src/avogadro/qtgui/rwmolecule.inl) of this repository.

The C++ containers are embedded as follows:
* `std::map<size_t, size_t>` becomes an association list `List (Nat × Nat)`
  (`mlookup` mirrors `find`/`at`, `massign` mirrors `operator[]` followed by
  assignment, which overwrites in place or inserts, `merase` mirrors
  `erase(key)`);
* `std::set<size_t>` becomes a sorted duplicate-free `List Nat`
  (`sinsert` mirrors `std::set::insert`, `serase` mirrors
  `std::set::erase(key)`; iterating a `std::set` visits elements in ascending
  order, which is the list order);
* `std::vector` becomes `List` (`operator[]` assignment becomes `List.set`,
  `resize` to a smaller size becomes `List.take`, `erase(begin + i)` becomes
  `List.eraseIdx`, `back()` becomes `List.getLastD`).

All theorems about operations that index containers carry explicit bounds /
well-formedness hypotheses, since the corresponding C++ accesses are only
defined there.
-/

/-- Lookup in an association list; mirrors `std::map::find` / `at`. -/
def mlookup : List (Nat × Nat) → Nat → Option Nat
  | [], _ => none
  | p :: ps, k => if p.1 = k then some p.2 else mlookup ps k

/-- Insert-or-assign on an association list; mirrors `std::map::operator[]`
followed by assignment: an existing key keeps its place in the map, a new
key is added. -/
def massign : List (Nat × Nat) → Nat → Nat → List (Nat × Nat)
  | [], k, v => [(k, v)]
  | p :: ps, k, v => if p.1 = k then (k, v) :: ps else p :: massign ps k v

/-- Erase a key from an association list; mirrors `std::map::erase(key)`. -/
def merase : List (Nat × Nat) → Nat → List (Nat × Nat)
  | [], _ => []
  | p :: ps, k => if p.1 = k then ps else p :: merase ps k

/-- Keys of an association list (the set of currently present elements). -/
def mkeys (m : List (Nat × Nat)) : List Nat := m.map (·.1)

/-- Ordered duplicate-free insertion; mirrors `std::set::insert`. -/
def sinsert (x : Nat) : List Nat → List Nat
  | [] => [x]
  | y :: ys => if x < y then x :: y :: ys else if x = y then y :: ys else y :: sinsert x ys

/-- Remove a key; mirrors `std::set::erase(key)` on a duplicate-free list. -/
def serase (x : Nat) : List Nat → List Nat
  | [] => []
  | y :: ys => if y = x then ys else y :: serase x ys

/-- Fuel-driven worker for `setIntersection`. -/
def interGo : Nat → List Nat → List Nat → List Nat
  | 0, _, _ => []
  | _ + 1, [], _ => []
  | _ + 1, _ :: _, [] => []
  | fuel + 1, a :: as, b :: bs =>
    if a < b then interGo fuel as (b :: bs)
    else if b < a then interGo fuel (a :: as) bs
    else a :: interGo fuel as bs

/-- The output of `std::set_intersection` on two sorted ranges
(bimap.cpp:81-83). -/
def setIntersection (l₁ l₂ : List Nat) : List Nat :=
  interGo (l₁.length + l₂.length) l₁ l₂

/-- State of `Avogadro::Core::BiMap` (src/avogadro/core/bimap.h):
`m_elementToGroup : std::map<size_t, size_t>` and
`m_groupToElement : std::vector<std::set<size_t>>`. -/
structure BiMap where
  elementToGroup : List (Nat × Nat)
  groupToElement : List (List Nat)
deriving DecidableEq

/-- `BiMap::addElement` (bimap.cpp:23-29): bind `index` to a fresh group id
`m_groupToElement.size()` and push a singleton group. -/
def BiMap.addElement (s : BiMap) (index : Nat) : BiMap :=
  { elementToGroup := massign s.elementToGroup index s.groupToElement.length,
    groupToElement := s.groupToElement ++ [[index]] }

/-- `BiMap::addConection` (bimap.cpp:31-45): if the two groups differ, move
every member of `b`'s group into `a`'s group (relabelling each member in the
element map and inserting it into `a`'s member set) and erase `b`'s group slot
from the vector. -/
def BiMap.addConection (s : BiMap) (a b : Nat) : BiMap :=
  let ga := (mlookup s.elementToGroup a).getD 0
  let gb := (mlookup s.elementToGroup b).getD 0
  if ga ≠ gb then
    let members := s.groupToElement.getD gb []
    { elementToGroup := members.foldl (fun m x => massign m x ga) s.elementToGroup,
      groupToElement :=
        (s.groupToElement.set ga
          (members.foldl (fun t x => sinsert x t) (s.groupToElement.getD ga []))).eraseIdx gb }
  else s

/-- `BiMap::removeConection(size_t)` (bimap.cpp:62-70): if `index`'s group has
more than one member, erase `index` from it and re-add `index` as a fresh
singleton group. -/
def BiMap.removeConectionOne (s : BiMap) (index : Nat) : BiMap :=
  let group := (mlookup s.elementToGroup index).getD 0
  if 1 < (s.groupToElement.getD group []).length then
    BiMap.addElement
      { elementToGroup := s.elementToGroup,
        groupToElement :=
          s.groupToElement.set group (serase index (s.groupToElement.getD group [])) }
      index
  else s

/-- `BiMap::removeElement` (bimap.cpp:47-53): detach `index`, then erase the
key equal to `index`'s group id — not the key `index` — from the element map;
the group slot itself is never freed. -/
def BiMap.removeElement (s : BiMap) (index : Nat) : BiMap :=
  let s1 := BiMap.removeConectionOne s index
  let group := (mlookup s1.elementToGroup index).getD 0
  { elementToGroup := merase s1.elementToGroup group,
    groupToElement := s1.groupToElement }

/-- Body of the migration loop of
`BiMap::removeConection(a, a_neighbors, b, b_neighbors)` (bimap.cpp:88-93):
remove `n` from its old group's member set, insert it into `group`'s member
set, and point `n`'s map entry at `group`. -/
def migrateStep (group : Nat) (t : BiMap) (n : Nat) : BiMap :=
  let oldGroup := (mlookup t.elementToGroup n).getD 0
  let g1 := t.groupToElement.set oldGroup
    (serase n (t.groupToElement.getD oldGroup []))
  let g2 := g1.set group (sinsert n (g1.getD group []))
  { elementToGroup := massign t.elementToGroup n group,
    groupToElement := g2 }

/-- `BiMap::removeConection(a, a_neighbors, b, b_neighbors)` (bimap.cpp:72-95):
sort both neighbor vectors, intersect them, and when the intersection is empty
detach `a` and migrate every element of the (sorted) `a_neighbors` into `a`'s
group. -/
def BiMap.removeConectionEdge (s : BiMap) (a : Nat) (aNeighbors : List Nat)
    (b : Nat) (bNeighbors : List Nat) : BiMap :=
  let aS := List.insertionSort (· ≤ ·) aNeighbors
  let bS := List.insertionSort (· ≤ ·) bNeighbors
  if setIntersection aS bS = [] then
    let s1 := BiMap.removeConectionOne s a
    let group := (mlookup s1.elementToGroup a).getD 0
    aS.foldl (migrateStep group) s1
  else s

/-- `BiMap::getGroup` (bimap.cpp:103-107). -/
def BiMap.getGroup (s : BiMap) (element : Nat) : Nat :=
  (mlookup s.elementToGroup element).getD 0

/-- `BiMap::getElements` (bimap.cpp:109-113). -/
def BiMap.getElements (s : BiMap) (group : Nat) : List Nat :=
  s.groupToElement.getD group []

/-- `BiMap::getAllGroups` (bimap.cpp:115). -/
def BiMap.getAllGroups (s : BiMap) : List (List Nat) := s.groupToElement

/-- Consistency of a `BiMap` state: keys are unique, every element's group id
is in range, every element is a member of its group, and every group member is
mapped back to that group (which also forces the groups to be disjoint). -/
def BiMap.WF (s : BiMap) : Prop :=
  s.elementToGroup.Pairwise (fun p q => p.1 ≠ q.1) ∧
  (∀ p ∈ s.elementToGroup, p.2 < s.groupToElement.length) ∧
  (∀ p ∈ s.elementToGroup, p.1 ∈ s.groupToElement.getD p.2 []) ∧
  (∀ i < s.groupToElement.length, ∀ x ∈ s.groupToElement.getD i [],
    mlookup s.elementToGroup x = some i)

instance (s : BiMap) : Decidable s.WF := by
  unfold BiMap.WF; infer_instance

/-! ## Molecule storage and undo commands (src/avogadro/qtgui/rwmolecule.inl)

Attribute values that the commands only move or copy (3-D coordinates, colors,
force vectors) are embedded as integer triples `Vec3`; no command computes with
them, so exactness of the copies is all that matters. -/

/-- `Avogadro::MaxIndex = std::numeric_limits<Nat>::max()`. -/
def MaxIndex : Nat := 2 ^ 64 - 1

/-- Opaque 3-component value standing for `Vector3` / `Vector3ub`. -/
structure Vec3 where
  x : Int
  y : Int
  z : Int
deriving DecidableEq

/-- `Vector3::Zero()`. -/
def Vec3.zero : Vec3 := ⟨0, 0, 0⟩

/-- Position of the first element satisfying `p`; mirrors
`std::find` / the index-returning scan loops in RWMolecule. -/
def findPos (p : α → Bool) : List α → Option Nat
  | [] => none
  | x :: xs => if p x then some 0 else (findPos p xs).map (· + 1)

/-- Columnar storage of `QtGui::Molecule` as touched by the undo commands:
per-atom columns, the per-uid position tables, and per-bond columns.
`atomUniqueIds` / `bondUniqueIds` are indexed by UniqueId and store the
current compact position (or `MaxIndex` when invalidated). -/
structure MoleculeState where
  atomicNumbers : List Nat
  positions3d : List Vec3
  hybridizations : List Nat
  formalCharges : List Int
  colors : List Vec3
  forceVectors : List Vec3
  atomUniqueIds : List Nat
  bondPairs : List (Nat × Nat)
  bondOrders : List Nat
  bondUniqueIds : List Nat
deriving DecidableEq

/-- `RWMolecule::atomCount` = `m_molecule.atomCount()` = size of the
atomic-number column. -/
def MoleculeState.atomCount (s : MoleculeState) : Nat := s.atomicNumbers.length

/-- Modelled from the spec: `RWMolecule::atomUniqueId(position)` (the
IdentifierTable `idOf` direction, spec section 4.2); its body is not under
src/. It scans the uid table for the entry currently holding `position` and
returns `MaxIndex` when there is none. -/
def MoleculeState.atomUniqueIdOf (s : MoleculeState) (position : Nat) : Nat :=
  (findPos (fun v => v == position) s.atomUniqueIds).getD MaxIndex

/-- Effect on the bond-pair column of the loop over `m_mol.bonds(fromIdx)`
(rwmolecule.inl:127-137 and 167-177): every endpoint equal to `fromIdx` is
rewritten to `toIdx` (when both endpoints match, only the first is rewritten,
as in the C++ `if`/`else`). `m_mol.bonds(x)` itself is modelled from the spec
(the bond-endpoint adjacency query): the bonds whose stored pair references
atom position `x`. -/
def rewriteEndpoints (pairs : List (Nat × Nat)) (fromIdx toIdx : Nat) :
    List (Nat × Nat) :=
  pairs.map fun pr =>
    if pr.1 = fromIdx then (toIdx, pr.2)
    else if pr.2 = fromIdx then (pr.1, toIdx)
    else pr

/-- Swap element `i` with the last element; mirrors the two
`swap(xs[m_atomId], xs.back())` calls in `RemoveAtomCommand::undo`. -/
def swapWithLast (l : List α) (i : Nat) (d : α) : List α :=
  (l.set i (l.getLastD d)).set (l.length - 1) (l.getD i d)

/-- Captured state of `RemoveAtomCommand` (rwmolecule.inl:101-113). -/
structure RemoveAtomCommand where
  atomId : Nat
  atomUid : Nat
  atomicNumber : Nat
  position3d : Vec3

/-- `RemoveAtomCommand::redo` (rwmolecule.inl:115-150): invalidate the removed
atom's uid, swap the last atom into the removed slot (atomic number and — when
the optional column is parallel — position), rewrite bond endpoints that
referenced the last position, rebind the moved atom's uid, and truncate the
columns. -/
def RemoveAtomCommand.redo (c : RemoveAtomCommand) (s : MoleculeState) :
    MoleculeState :=
  let uids0 := s.atomUniqueIds.set c.atomUid MaxIndex
  let movedId := s.atomCount - 1
  if c.atomId ≠ movedId then
    let an1 := s.atomicNumbers.set c.atomId (s.atomicNumbers.getLastD 0)
    let pos1 :=
      if s.positions3d.length = s.atomicNumbers.length then
        s.positions3d.set c.atomId (s.positions3d.getLastD Vec3.zero)
      else s.positions3d
    let pairs1 := rewriteEndpoints s.bondPairs movedId c.atomId
    let movedUid := (findPos (fun v => v == movedId) uids0).getD MaxIndex
    let uids1 := uids0.set movedUid c.atomId
    { s with
      atomicNumbers := an1.take movedId,
      positions3d := if pos1.length = an1.length then pos1.take movedId else pos1,
      bondPairs := pairs1,
      atomUniqueIds := uids1 }
  else
    { s with
      atomicNumbers := s.atomicNumbers.take movedId,
      positions3d :=
        if s.positions3d.length = s.atomicNumbers.length then
          s.positions3d.take movedId
        else s.positions3d,
      atomUniqueIds := uids0 }

/-- `RemoveAtomCommand::undo` (rwmolecule.inl:152-188): append the removed
atom's captured data, swap it back with the atom that had been moved into its
slot, rewrite the affected bond endpoints back, and restore both uids. -/
def RemoveAtomCommand.undo (c : RemoveAtomCommand) (s : MoleculeState) :
    MoleculeState :=
  let pos0 :=
    if s.positions3d.length = s.atomicNumbers.length then
      s.positions3d ++ [c.position3d]
    else s.positions3d
  let an0 := s.atomicNumbers ++ [c.atomicNumber]
  let movedId := an0.length - 1
  if c.atomId ≠ movedId then
    let pos1 := if pos0.length = an0.length then swapWithLast pos0 c.atomId Vec3.zero else pos0
    let an1 := swapWithLast an0 c.atomId 0
    let pairs1 := rewriteEndpoints s.bondPairs c.atomId movedId
    let movedUid := (findPos (fun v => v == c.atomId) s.atomUniqueIds).getD MaxIndex
    let uids1 := (s.atomUniqueIds.set movedUid movedId).set c.atomUid c.atomId
    { s with
      atomicNumbers := an1,
      positions3d := pos1,
      bondPairs := pairs1,
      atomUniqueIds := uids1 }
  else
    { s with
      atomicNumbers := an0,
      positions3d := pos0,
      atomUniqueIds := s.atomUniqueIds.set c.atomUid c.atomId }

/-- Modelled from the spec: `QtGui::Molecule::addAtom` (spec section 4.3,
"Insertion is simply an append plus UniqueId allocation at the new last
position"); its body is not under src/. -/
def MoleculeState.addAtom (s : MoleculeState) (atomicNumber : Nat) : MoleculeState :=
  { s with
    atomicNumbers := s.atomicNumbers ++ [atomicNumber],
    atomUniqueIds := s.atomUniqueIds ++ [s.atomicNumbers.length] }

/-- Modelled from the spec: `QtGui::Molecule::removeAtom` (spec section 4.3
compaction algorithm); its body is not under src/. Swap the last atom into
slot `p` (the optional position column only when parallel), rewrite bond
endpoints, rebind the moved uid, invalidate the removed uid, truncate. -/
def MoleculeState.removeAtom (s : MoleculeState) (p : Nat) : MoleculeState :=
  let last := s.atomCount - 1
  let removedUid := (findPos (fun v => v == p) s.atomUniqueIds).getD MaxIndex
  let s1 :=
    if p ≠ last then
      { s with
        atomicNumbers := s.atomicNumbers.set p (s.atomicNumbers.getLastD 0),
        positions3d :=
          if s.positions3d.length = s.atomicNumbers.length then
            s.positions3d.set p (s.positions3d.getLastD Vec3.zero)
          else s.positions3d,
        bondPairs := rewriteEndpoints s.bondPairs last p,
        atomUniqueIds :=
          s.atomUniqueIds.set
            ((findPos (fun v => v == last) s.atomUniqueIds).getD MaxIndex) p }
    else s
  { s1 with
    atomicNumbers := s1.atomicNumbers.take last,
    positions3d :=
      if s1.positions3d.length = s1.atomicNumbers.length then s1.positions3d.take last
      else s1.positions3d,
    atomUniqueIds := s1.atomUniqueIds.set removedUid MaxIndex }

/-- Captured state of `AddAtomCommand` (rwmolecule.inl:70-82). -/
structure AddAtomCommand where
  atomicNumber : Nat
  usingPositions : Bool
  atomId : Nat
  uniqueId : Nat

/-- `AddAtomCommand::redo` (rwmolecule.inl:84-90): append the atom and, when
the command was created with positions in use, append a zero position. -/
def AddAtomCommand.redo (c : AddAtomCommand) (s : MoleculeState) : MoleculeState :=
  let s1 := s.addAtom c.atomicNumber
  if c.usingPositions then { s1 with positions3d := s1.positions3d ++ [Vec3.zero] }
  else s1

/-- `AddAtomCommand::undo` (rwmolecule.inl:92-96): remove the appended atom
(which is at the last position) via `Molecule::removeAtom`. -/
def AddAtomCommand.undo (c : AddAtomCommand) (s : MoleculeState) : MoleculeState :=
  s.removeAtom c.atomId

/-- Captured state of `SetAtomicNumberCommand` (rwmolecule.inl:213-225). -/
structure SetAtomicNumberCommand where
  atomId : Nat
  oldAtomicNumber : Nat
  newAtomicNumber : Nat

/-- `SetAtomicNumberCommand::redo` (rwmolecule.inl:227). -/
def SetAtomicNumberCommand.redo (c : SetAtomicNumberCommand) (s : MoleculeState) :
    MoleculeState :=
  { s with atomicNumbers := s.atomicNumbers.set c.atomId c.newAtomicNumber }

/-- `SetAtomicNumberCommand::undo` (rwmolecule.inl:229). -/
def SetAtomicNumberCommand.undo (c : SetAtomicNumberCommand) (s : MoleculeState) :
    MoleculeState :=
  { s with atomicNumbers := s.atomicNumbers.set c.atomId c.oldAtomicNumber }

/-- `makeBondPair` (rwmolecule.inl:425-428): put the smaller index first. -/
def makeBondPair (a b : Nat) : Nat × Nat :=
  if a < b then (a, b) else (b, a)

/-- Modelled from the spec: `QtGui::Molecule::addBond` (spec sections 4.2-4.3:
append of the normalized pair and the order, "plus UniqueId allocation at the
new last position"); its body is not under src/. -/
def MoleculeState.addBond (s : MoleculeState) (a b : Nat) (order : Nat) :
    MoleculeState :=
  { s with
    bondPairs := s.bondPairs ++ [makeBondPair a b],
    bondOrders := s.bondOrders ++ [order],
    bondUniqueIds := s.bondUniqueIds ++ [s.bondPairs.length] }

/-- Modelled from the spec: `QtGui::Molecule::removeBond` (spec section 4.3,
"symmetrically for bonds"); its body is not under src/. Swap the last bond
into slot `i`, rebind the moved bond's uid, invalidate the removed bond's uid,
truncate the bond columns. -/
def MoleculeState.removeBond (s : MoleculeState) (i : Nat) : MoleculeState :=
  let last := s.bondPairs.length - 1
  let removedUid := (findPos (fun v => v == i) s.bondUniqueIds).getD MaxIndex
  let s1 :=
    if i ≠ last then
      { s with
        bondPairs := s.bondPairs.set i (s.bondPairs.getLastD (0, 0)),
        bondOrders := s.bondOrders.set i (s.bondOrders.getLastD 0),
        bondUniqueIds :=
          s.bondUniqueIds.set
            ((findPos (fun v => v == last) s.bondUniqueIds).getD MaxIndex) i }
    else s
  { s1 with
    bondPairs := s1.bondPairs.take last,
    bondOrders := s1.bondOrders.take last,
    bondUniqueIds := s1.bondUniqueIds.set removedUid MaxIndex }

/-- Captured state of `RemoveBondCommand` (rwmolecule.inl:431-444). -/
structure RemoveBondCommand where
  bondId : Nat
  bondUid : Nat
  bondPair : Nat × Nat
  bondOrder : Nat

/-- `RemoveBondCommand::redo` (rwmolecule.inl:446). -/
def RemoveBondCommand.redo (c : RemoveBondCommand) (s : MoleculeState) :
    MoleculeState :=
  s.removeBond c.bondId

/-- `RemoveBondCommand::undo` (rwmolecule.inl:448-451): re-add the bond through
`Molecule::addBond` (which allocates a fresh UniqueId). -/
def RemoveBondCommand.undo (c : RemoveBondCommand) (s : MoleculeState) :
    MoleculeState :=
  s.addBond c.bondPair.1 c.bondPair.2 c.bondOrder

/-- Common shape of `SetPosition3dCommand` (rwmolecule.inl:265-277) and
`SetForceVectorCommand` (rwmolecule.inl:603-615): three parallel arrays of
atom ids, "before" values and "after" values. -/
structure MergeCmd (V : Type) where
  atomIds : List Nat
  olds : List V
  news : List V
deriving DecidableEq

/-- One iteration of the merge loop (rwmolecule.inl:304-324 and 642-662): look
the incoming atom id up in this command; append the whole entry when absent,
overwrite only the "after" value when present. -/
def mergeStep (self : MergeCmd V) (e : Nat × V × V) : MergeCmd V :=
  match findPos (fun y => y == e.1) self.atomIds with
  | none =>
    { atomIds := self.atomIds ++ [e.1],
      olds := self.olds ++ [e.2.1],
      news := self.news ++ [e.2.2] }
  | some off => { self with news := self.news.set off e.2.2 }

/-- `SetPosition3dCommand::mergeWith` (rwmolecule.inl:291-328) and the
identically-structured `SetForceVectorCommand::mergeWith`
(rwmolecule.inl:629-665): reject the merge when the incoming command's arrays
are inconsistent, otherwise fold every incoming entry into this command. -/
def MergeCmd.mergeWith (self other : MergeCmd V) : Option (MergeCmd V) :=
  if other.olds.length = other.atomIds.length ∧
      other.news.length = other.atomIds.length then
    some ((other.atomIds.zip (other.olds.zip other.news)).foldl mergeStep self)
  else none

/-- The "before" value recorded for atom `a`, through the same scan the
command's `undo` loop uses. -/
def MergeCmd.lookupOld (c : MergeCmd V) (a : Nat) : Option V :=
  (findPos (fun y => y == a) c.atomIds).bind fun i => c.olds[i]?

/-- The "after" value recorded for atom `a`, through the same scan the
command's `redo` loop uses. -/
def MergeCmd.lookupNew (c : MergeCmd V) (a : Nat) : Option V :=
  (findPos (fun y => y == a) c.atomIds).bind fun i => c.news[i]?

/-- The all-or-nothing constraint on the optional 3-D coordinate column
(spec section 3, Atom): absent, or exactly parallel to the atomic numbers. -/
def MoleculeState.AllOrNothing (s : MoleculeState) : Prop :=
  s.positions3d = [] ∨ s.positions3d.length = s.atomicNumbers.length

instance (s : MoleculeState) : Decidable s.AllOrNothing := by
  unfold MoleculeState.AllOrNothing; infer_instance

/-! ## Generic container lemmas -/

theorem getD_lt {α : Type _} (l : List α) (i : Nat) (d : α) (h : i < l.length) :
    l.getD i d = l[i] := by
  simp [List.getD_eq_getElem?_getD, List.getElem?_eq_getElem h]

theorem getD_set_self {α : Type _} (l : List α) (i : Nat) (v d : α)
    (h : i < l.length) : (l.set i v).getD i d = v := by
  simp [List.getD_eq_getElem?_getD, List.getElem?_set, h]

theorem getD_set_ne {α : Type _} (l : List α) (i j : Nat) (v d : α) (h : i ≠ j) :
    (l.set i v).getD j d = l.getD j d := by
  simp [List.getD_eq_getElem?_getD, List.getElem?_set, h]

theorem getD_append_left {α : Type _} (l m : List α) (i : Nat) (d : α)
    (h : i < l.length) : (l ++ m).getD i d = l.getD i d := by
  simp [List.getD_eq_getElem?_getD, List.getElem?_append, h]

theorem getD_append_len {α : Type _} (l : List α) (x d : α) :
    (l ++ [x]).getD l.length d = x := by
  simp [List.getD_eq_getElem?_getD]

theorem getD_take {α : Type _} (l : List α) (k i : Nat) (d : α) (h : i < k) :
    (l.take k).getD i d = l.getD i d := by
  simp [List.getD_eq_getElem?_getD, List.getElem?_take, h]

theorem getLastD_eq_getD {α : Type _} (l : List α) (d : α) :
    l.getLastD d = l.getD (l.length - 1) d := by
  induction l generalizing d with
  | nil => rfl
  | cons x xs ih =>
      cases xs with
      | nil => rfl
      | cons y ys =>
          have h1 : (x :: y :: ys).getLastD d = (y :: ys).getLastD x := rfl
          rw [h1, ih]
          simp [List.getD_cons_succ]

theorem ext_of_getD {α : Type _} (l₁ l₂ : List α) (d : α)
    (hlen : l₁.length = l₂.length)
    (h : ∀ i < l₁.length, l₁.getD i d = l₂.getD i d) : l₁ = l₂ := by
  apply List.ext_getElem hlen
  intro i h1 h2
  have := h i h1
  rwa [getD_lt _ _ _ h1, getD_lt _ _ _ h2] at this

theorem mlookup_massign (m : List (Nat × Nat)) (k v j : Nat) :
    mlookup (massign m k v) j = if j = k then some v else mlookup m j := by
  induction m with
  | nil =>
      by_cases hj : j = k
      · simp [massign, mlookup, hj]
      · have hk : ¬ k = j := fun h => hj h.symm
        simp [massign, mlookup, hj, hk]
  | cons p ps ih =>
      by_cases hp : p.1 = k
      · by_cases hj : j = k
        · simp [massign, mlookup, hp, hj]
        · have hk : ¬ k = j := fun h => hj h.symm
          have hpj : ¬ p.1 = j := by rw [hp]; exact hk
          simp [massign, mlookup, hp, hj, hk, hpj]
      · by_cases hpj : p.1 = j
        · have hj : ¬ j = k := fun h => hp (hpj.trans h)
          simp [massign, mlookup, hp, hpj, hj]
        · simp [massign, mlookup, hp, hpj, ih]

theorem mlookup_assignAll (xs : List Nat) (m : List (Nat × Nat)) (v j : Nat) :
    mlookup (xs.foldl (fun m x => massign m x v) m) j =
      if j ∈ xs then some v else mlookup m j := by
  induction xs generalizing m with
  | nil => simp
  | cons x xs ih =>
      by_cases hj : j ∈ xs
      · simp [List.foldl_cons, ih, hj]
      · by_cases hx : j = x
        · subst hx
          rw [List.foldl_cons, ih]
          simp [hj, mlookup_massign]
        · rw [List.foldl_cons, ih]
          simp [hj, hx, mlookup_massign]

theorem mlookup_mem (m : List (Nat × Nat)) (k v : Nat)
    (h : mlookup m k = some v) : (k, v) ∈ m := by
  induction m with
  | nil => simp [mlookup] at h
  | cons p ps ih =>
      by_cases hp : p.1 = k
      · simp [mlookup, hp] at h
        refine List.mem_cons.mpr (Or.inl ?_)
        cases p with
        | mk a b => simp_all
      · simp [mlookup, hp] at h
        exact List.mem_cons_of_mem _ (ih h)

theorem mem_sinsert (x y : Nat) (l : List Nat) :
    y ∈ sinsert x l ↔ y = x ∨ y ∈ l := by
  induction l with
  | nil => simp [sinsert]
  | cons z zs ih =>
      by_cases h1 : x < z
      · simp only [sinsert, if_pos h1, List.mem_cons]
      · by_cases h2 : x = z
        · simp only [sinsert, if_neg h1, if_pos h2, List.mem_cons]
          subst h2
          tauto
        · simp only [sinsert, if_neg h1, if_neg h2, List.mem_cons, ih]
          tauto

theorem findPos_some_lt {α : Type _} (p : α → Bool) (l : List α) (i : Nat)
    (h : findPos p l = some i) : i < l.length := by
  induction l generalizing i with
  | nil => simp [findPos] at h
  | cons x xs ih =>
      by_cases hx : p x
      · simp [findPos, hx] at h
        simp [← h]
      · simp [findPos, hx] at h
        obtain ⟨j, hj, hji⟩ := h
        have := ih j hj
        simp only [List.length_cons]
        omega

theorem findPos_some_getD {α : Type _} (p : α → Bool) (l : List α) (i : Nat)
    (d : α) (h : findPos p l = some i) : p (l.getD i d) = true := by
  induction l generalizing i with
  | nil => simp [findPos] at h
  | cons x xs ih =>
      by_cases hx : p x
      · simp [findPos, hx] at h
        simp [← h, List.getD_cons_zero, hx]
      · simp [findPos, hx] at h
        obtain ⟨j, hj, hji⟩ := h
        rw [← hji]
        simpa [List.getD_cons_succ] using ih j hj

theorem findPos_none_iff {α : Type _} (p : α → Bool) (l : List α) :
    findPos p l = none ↔ ∀ x ∈ l, p x = false := by
  induction l with
  | nil => simp [findPos]
  | cons x xs ih =>
      by_cases hx : p x
      · simp [findPos, hx]
      · simp [findPos, hx, ih]

theorem findPos_eq_some_unique {α : Type _} (p : α → Bool) (l : List α)
    (w : Nat) (d : α) (hw : w < l.length) (hv : p (l.getD w d) = true)
    (hu : ∀ j < l.length, p (l.getD j d) = true → j = w) :
    findPos p l = some w := by
  induction l generalizing w with
  | nil => simp at hw
  | cons x xs ih =>
      by_cases hx : p x
      · have h0 : 0 = w := hu 0 (by simp) (by simpa [List.getD_cons_zero] using hx)
        simp [findPos, hx, ← h0]
      · have hw0 : w ≠ 0 := by
          intro h
          rw [h] at hv
          simp [List.getD_cons_zero] at hv
          exact hx hv
        obtain ⟨w0, rfl⟩ : ∃ w0, w = w0 + 1 := ⟨w - 1, by omega⟩
        have hrec : findPos p xs = some w0 := by
          apply ih w0
          · simpa using hw
          · simpa [List.getD_cons_succ] using hv
          · intro j hj hpj
            have := hu (j + 1) (by simpa using hj) (by simpa [List.getD_cons_succ] using hpj)
            omega
        simp [findPos, hx, hrec]

theorem findPos_append_some {α : Type _} (p : α → Bool) (l₁ l₂ : List α) (i : Nat)
    (h : findPos p l₁ = some i) : findPos p (l₁ ++ l₂) = some i := by
  induction l₁ generalizing i with
  | nil => simp [findPos] at h
  | cons x xs ih =>
      by_cases hx : p x
      · simp [findPos, hx] at h ⊢
        exact h
      · simp [findPos, hx] at h ⊢
        obtain ⟨j, hj, hji⟩ := h
        exact ⟨j, ih j hj, hji⟩

theorem findPos_append_none {α : Type _} (p : α → Bool) (l₁ l₂ : List α)
    (h : findPos p l₁ = none) :
    findPos p (l₁ ++ l₂) = (findPos p l₂).map (· + l₁.length) := by
  induction l₁ with
  | nil => simp [findPos]
  | cons x xs ih =>
      by_cases hx : p x
      · simp [findPos, hx] at h
      · simp [findPos, hx] at h ⊢
        rw [ih h]
        cases findPos p l₂ <;> simp <;> omega

theorem findPos_isSome_iff_mem (a : Nat) (l : List Nat) :
    (findPos (fun y => y == a) l).isSome ↔ a ∈ l := by
  induction l with
  | nil => simp [findPos]
  | cons x xs ih =>
      by_cases hx : x = a
      · simp [findPos, hx]
      · have hb : ((x == a) : Bool) = false := by simp [hx]
        have hax : ¬ a = x := fun h => hx h.symm
        simp [findPos, hb, ih, hax]

theorem interGo_eq_nil_iff (fuel : Nat) (l₁ l₂ : List Nat)
    (hf : l₁.length + l₂.length ≤ fuel)
    (h₁ : List.Sorted (· ≤ ·) l₁) (h₂ : List.Sorted (· ≤ ·) l₂) :
    (interGo fuel l₁ l₂ = [] ↔ ∀ x ∈ l₁, x ∉ l₂) := by
  induction fuel generalizing l₁ l₂ with
  | zero =>
      have : l₁ = [] := by
        cases l₁
        · rfl
        · simp at hf
      subst this
      simp [interGo]
  | succ fuel ih =>
      match l₁, l₂ with
      | [], _ => simp [interGo]
      | x :: xs, [] => simp [interGo]
      | a :: as, b :: bs =>
          have hsa := (List.sorted_cons.mp h₁)
          have hsb := (List.sorted_cons.mp h₂)
          rcases Nat.lt_trichotomy a b with hab | hab | hab
          · have hrec := ih as (b :: bs) (by simp at hf ⊢; omega) hsa.2 h₂
            have hnot : a ∉ b :: bs := by
              simp only [List.mem_cons]
              push_neg
              constructor
              · omega
              · intro hmem
                have := hsb.1 a hmem
                omega
            simp only [interGo, if_pos hab, hrec]
            constructor
            · intro h x hx
              rcases List.mem_cons.mp hx with rfl | hx
              · exact hnot
              · exact h x hx
            · intro h x hx
              exact h x (List.mem_cons_of_mem _ hx)
          · subst hab
            have : interGo (fuel + 1) (a :: as) (a :: bs) = a :: interGo fuel as bs := by
              simp [interGo]
            rw [this]
            simp only [List.cons_ne_nil, false_iff]
            push_neg
            exact ⟨a, List.mem_cons_self a as, List.mem_cons_self a bs⟩
          · have hrec := ih (a :: as) bs (by simp at hf ⊢; omega) h₁ hsb.2
            have hno : ∀ x ∈ a :: as, x ≠ b := by
              intro x hx
              rcases List.mem_cons.mp hx with rfl | hx
              · omega
              · have := hsa.1 x hx
                omega
            simp only [interGo, if_neg (by omega : ¬ a < b), if_pos hab, hrec]
            constructor
            · intro h x hx
              simp only [List.mem_cons]
              push_neg
              exact ⟨hno x hx, h x hx⟩
            · intro h x hx hxb
              exact h x hx (List.mem_cons_of_mem _ hxb)

theorem setIntersection_eq_nil_iff (l₁ l₂ : List Nat)
    (h₁ : List.Sorted (· ≤ ·) l₁) (h₂ : List.Sorted (· ≤ ·) l₂) :
    (setIntersection l₁ l₂ = [] ↔ ∀ x ∈ l₁, x ∉ l₂) :=
  interGo_eq_nil_iff _ l₁ l₂ le_rfl h₁ h₂

/-! ## Claim C3 -/

/-- C3: the partition invariant breaks on the sequence `addElement 0;
removeElement 0`: afterwards element 0 is no longer present in the
element-to-group map, yet it is still a member of group 0, so the union of all
groups' members is `{0}` while the set of present elements is empty. -/
theorem C3_partition_violation :
    mlookup (BiMap.removeElement (BiMap.addElement ⟨[], []⟩ 0) 0).elementToGroup 0
        = none ∧
    0 ∈ (BiMap.removeElement (BiMap.addElement ⟨[], []⟩ 0) 0).getAllGroups.getD 0 [] := by
  decide

/-! ## Claim C6 -/

/-- C6: after `addElement 0; addElement 1; removeElement 0`, element 0 is still
a member of group 0 (`getElements 0 = [0]`), the emptied-out group slot is not
freed (`getAllGroups` still has two slots), even though 0 was removed from the
element-to-group map — contradicting "deletes id entirely". -/
theorem C6_removeElement_violation :
    0 ∈ (BiMap.removeElement (BiMap.addElement (BiMap.addElement ⟨[], []⟩ 0) 1) 0).getElements 0 ∧
    (BiMap.removeElement (BiMap.addElement (BiMap.addElement ⟨[], []⟩ 0) 1) 0).getAllGroups.length = 2 ∧
    mlookup (BiMap.removeElement (BiMap.addElement (BiMap.addElement ⟨[], []⟩ 0) 1) 0).elementToGroup 0 = none := by
  decide

/-! ## Claim C4 -/

/-- C4 counterexample: three atoms `0,1,2` with the (normalized) bond `(1,2)`;
removing atom 0 moves atom 2 to position 0 and rewrites the bond pair to
`(1,0)`, whose smaller atom position is second — the smaller-first ordering is
not preserved by compaction. -/
theorem C4_counterexample :
    ¬ (∀ pr ∈ (RemoveAtomCommand.redo ⟨0, 0, 6, ⟨0, 0, 0⟩⟩
        { atomicNumbers := [6, 7, 8],
          positions3d := [⟨0, 0, 0⟩, ⟨1, 0, 0⟩, ⟨2, 0, 0⟩],
          hybridizations := [], formalCharges := [], colors := [],
          forceVectors := [],
          atomUniqueIds := [0, 1, 2], bondPairs := [(1, 2)], bondOrders := [1],
          bondUniqueIds := [0] }).bondPairs, pr.1 ≤ pr.2) := by
  decide

/-- C4 amended: bond creation does normalize — `makeBondPair` is insensitive
to argument order and always puts the numerically smaller position first, and
`Molecule::addBond` stores exactly that normalized pair — but compaction after
an atom removal can leave a stored pair with the larger position first (see
the counterexample). -/
theorem C4_amended_creation_normalizes (a b : Nat) (order : Nat)
    (s : MoleculeState) :
    makeBondPair a b = makeBondPair b a ∧
    (makeBondPair a b).1 ≤ (makeBondPair a b).2 ∧
    (s.addBond a b order).bondPairs.getLastD (0, 0) = makeBondPair a b := by
  refine ⟨?_, ?_, ?_⟩
  · unfold makeBondPair
    rcases Nat.lt_trichotomy a b with h | h | h
    · simp [h, Nat.lt_asymm h]
    · simp [h]
    · simp [h, Nat.lt_asymm h]
  · unfold makeBondPair
    rcases Nat.lt_trichotomy a b with h | h | h
    · simp only [if_pos h]
      show a ≤ b
      exact Nat.le_of_lt h
    · simp [h]
    · simp only [if_neg (Nat.lt_asymm h)]
      show b ≤ a
      exact Nat.le_of_lt h
  · show ((s.addBond a b order).bondPairs).getLastD (0, 0) = makeBondPair a b
    have : (s.addBond a b order).bondPairs = s.bondPairs ++ [makeBondPair a b] := rfl
    rw [this, getLastD_eq_getD]
    simp only [List.length_append, List.length_cons, List.length_nil]
    have h2 : s.bondPairs.length + 1 - 1 = s.bondPairs.length := by omega
    rw [h2, getD_append_len]

/-! ## Claim C10 -/

/-- C10: when the two neighbor lists share an element, the four-argument
`removeConection` leaves the `BiMap` state entirely unchanged (the common
neighbor makes the sorted intersection nonempty, so the body is skipped). -/
theorem C10_frame (s : BiMap) (a b x : Nat) (aN bN : List Nat)
    (ha : (mlookup s.elementToGroup a).isSome)
    (hb : (mlookup s.elementToGroup b).isSome)
    (hxa : x ∈ aN) (hxb : x ∈ bN) :
    s.removeConectionEdge a aN b bN = s := by
  unfold BiMap.removeConectionEdge
  have hsa : List.Sorted (· ≤ ·) (List.insertionSort (· ≤ ·) aN) :=
    List.sorted_insertionSort _ _
  have hsb : List.Sorted (· ≤ ·) (List.insertionSort (· ≤ ·) bN) :=
    List.sorted_insertionSort _ _
  have hxa2 : x ∈ List.insertionSort (· ≤ ·) aN :=
    (List.perm_insertionSort (· ≤ ·) aN).mem_iff.mpr hxa
  have hxb2 : x ∈ List.insertionSort (· ≤ ·) bN :=
    (List.perm_insertionSort (· ≤ ·) bN).mem_iff.mpr hxb
  have hne : ¬ setIntersection (List.insertionSort (· ≤ ·) aN)
      (List.insertionSort (· ≤ ·) bN) = [] := by
    intro h
    exact (setIntersection_eq_nil_iff _ _ hsa hsb).mp h x hxa2 hxb2
  simp [hne]

/-- C10 witness: a triangle `{0,1,2}` in one group; removing the edge `0–1`
whose endpoints share the neighbor `2` leaves the state unchanged. -/
theorem C10_frame_witness :
    (mlookup (BiMap.mk [(0, 0), (1, 0), (2, 0)] [[0, 1, 2]]).elementToGroup 0).isSome ∧
    (mlookup (BiMap.mk [(0, 0), (1, 0), (2, 0)] [[0, 1, 2]]).elementToGroup 1).isSome ∧
    BiMap.removeConectionEdge (BiMap.mk [(0, 0), (1, 0), (2, 0)] [[0, 1, 2]]) 0 [2] 1 [2]
      = BiMap.mk [(0, 0), (1, 0), (2, 0)] [[0, 1, 2]] :=
  ⟨by decide, by decide,
    C10_frame _ 0 1 2 [2] [2] (by decide) (by decide) (by decide) (by decide)⟩

/-! ## Claim C7 -/

/-- C7: on a well-formed `BiMap` containing `a` and `b`, immediately after
`addConection a b` the queries `getGroup a` and `getGroup b` agree, and running
`addConection a b` a second time returns the state unchanged (the two lookups
now agree, so the merge branch is skipped). -/
theorem C7_connect (s : BiMap) (a b : Nat) (hwf : s.WF)
    (ha : (mlookup s.elementToGroup a).isSome)
    (hb : (mlookup s.elementToGroup b).isSome) :
    (s.addConection a b).getGroup a = (s.addConection a b).getGroup b ∧
    (s.addConection a b).addConection a b = s.addConection a b := by
  rcases Option.isSome_iff_exists.mp ha with ⟨ga, hga⟩
  rcases Option.isSome_iff_exists.mp hb with ⟨gb, hgb⟩
  by_cases hEq : ga = gb
  · have hstep : s.addConection a b = s := by
      unfold BiMap.addConection
      simp [hga, hgb, hEq]
    rw [hstep]
    constructor
    · unfold BiMap.getGroup
      rw [hga, hgb, hEq]
    · exact hstep
  · have hbpair : (b, gb) ∈ s.elementToGroup := mlookup_mem _ _ _ hgb
    have hmemb : b ∈ s.groupToElement.getD gb [] := hwf.2.2.1 _ hbpair
    have hstep : s.addConection a b =
        ⟨(s.groupToElement.getD gb []).foldl (fun m x => massign m x ga) s.elementToGroup,
         (s.groupToElement.set ga
           ((s.groupToElement.getD gb []).foldl (fun t x => sinsert x t)
             (s.groupToElement.getD ga []))).eraseIdx gb⟩ := by
      unfold BiMap.addConection
      simp [hga, hgb, hEq]
    have hla : mlookup ((s.groupToElement.getD gb []).foldl
        (fun m x => massign m x ga) s.elementToGroup) a = some ga := by
      rw [mlookup_assignAll]
      by_cases hmem : a ∈ s.groupToElement.getD gb []
      · rw [if_pos hmem]
      · rw [if_neg hmem]
        exact hga
    have hlb : mlookup ((s.groupToElement.getD gb []).foldl
        (fun m x => massign m x ga) s.elementToGroup) b = some ga := by
      rw [mlookup_assignAll, if_pos hmemb]
    constructor
    · rw [hstep]
      unfold BiMap.getGroup
      simp only
      rw [hla, hlb]
    · rw [hstep]
      conv_lhs => unfold BiMap.addConection
      simp only [hla, hlb]
      simp

/-- C7 witness: two singleton groups `{0}` and `{1}` in a well-formed state;
connecting 0 and 1 makes their group queries agree and a repeated connect is
the identity. -/
theorem C7_connect_witness :
    (BiMap.mk [(0, 0), (1, 1)] [[0], [1]]).WF ∧
    ((BiMap.mk [(0, 0), (1, 1)] [[0], [1]]).addConection 0 1).getGroup 0 =
      ((BiMap.mk [(0, 0), (1, 1)] [[0], [1]]).addConection 0 1).getGroup 1 ∧
    ((BiMap.mk [(0, 0), (1, 1)] [[0], [1]]).addConection 0 1).addConection 0 1 =
      (BiMap.mk [(0, 0), (1, 1)] [[0], [1]]).addConection 0 1 :=
  ⟨by decide,
    C7_connect (BiMap.mk [(0, 0), (1, 1)] [[0], [1]]) 0 1 (by decide) (by decide) (by decide)⟩

/-! ## Claim C5 -/

/-- Effect of one `migrateStep` on a state whose `group` slot is in range and
where the migrated element's current group differs from `group`. -/
theorem migrateStep_facts (gA a n : Nat) (t : BiMap)
    (hlen : gA < t.groupToElement.length)
    (hna : n ≠ a)
    (hla : mlookup t.elementToGroup a = some gA)
    (hv : ∃ v, mlookup t.elementToGroup n = some v ∧ v ≠ gA) :
    mlookup (migrateStep gA t n).elementToGroup a = some gA ∧
    gA < (migrateStep gA t n).groupToElement.length ∧
    (∀ x, x ∈ (migrateStep gA t n).groupToElement.getD gA [] ↔
      x = n ∨ x ∈ t.groupToElement.getD gA []) ∧
    mlookup (migrateStep gA t n).elementToGroup n = some gA ∧
    (∀ m, m ≠ n → mlookup (migrateStep gA t n).elementToGroup m =
      mlookup t.elementToGroup m) := by
  obtain ⟨v, hvl, hvne⟩ := hv
  have hstep : migrateStep gA t n =
      { elementToGroup := massign t.elementToGroup n gA,
        groupToElement :=
          (t.groupToElement.set v (serase n (t.groupToElement.getD v []))).set gA
            (sinsert n ((t.groupToElement.set v
              (serase n (t.groupToElement.getD v []))).getD gA [])) } := by
    unfold migrateStep
    rw [hvl]
    rfl
  rw [hstep]
  have hg1 : (t.groupToElement.set v (serase n (t.groupToElement.getD v []))).getD gA []
      = t.groupToElement.getD gA [] := getD_set_ne _ _ _ _ _ hvne
  have hg1len : (t.groupToElement.set v (serase n (t.groupToElement.getD v []))).length
      = t.groupToElement.length := by simp
  refine ⟨?_, ?_, ?_, ?_, ?_⟩
  · rw [mlookup_massign, if_neg (fun h => hna h.symm)]
    exact hla
  · simpa [hg1len] using hlen
  · intro x
    rw [getD_set_self _ _ _ _ (by rw [hg1len]; exact hlen), hg1]
    exact mem_sinsert n x _
  · rw [mlookup_massign, if_pos rfl]
  · intro m hm
    rw [mlookup_massign, if_neg hm]

/-- Invariant of the migration loop of the four-argument `removeConection`:
folding `migrateStep gA` over `rem`, starting from a state whose group `gA`
holds exactly `a` and the already-migrated `done`, extends `gA`'s member set by
`rem` and points every migrated element at `gA`. -/
theorem migrate_fold (gA a : Nat) (rem : List Nat) :
    ∀ (done : List Nat) (t : BiMap),
    rem.Nodup →
    a ∉ rem →
    (∀ n ∈ rem, n ∉ done) →
    mlookup t.elementToGroup a = some gA →
    gA < t.groupToElement.length →
    (∀ x, x ∈ t.groupToElement.getD gA [] ↔ x = a ∨ x ∈ done) →
    (∀ n ∈ done, mlookup t.elementToGroup n = some gA) →
    (∀ n ∈ rem, ∃ v, mlookup t.elementToGroup n = some v ∧ v ≠ gA) →
    mlookup (rem.foldl (migrateStep gA) t).elementToGroup a = some gA ∧
    (∀ x, x ∈ (rem.foldl (migrateStep gA) t).groupToElement.getD gA [] ↔
      x = a ∨ x ∈ done ∨ x ∈ rem) ∧
    (∀ n, n ∈ done ∨ n ∈ rem →
      mlookup (rem.foldl (migrateStep gA) t).elementToGroup n = some gA) := by
  induction rem with
  | nil =>
      intro done t _ _ _ hla hlen hmem hdone _
      refine ⟨hla, ?_, ?_⟩
      · intro x
        simpa using hmem x
      · intro n hn
        rcases hn with hn | hn
        · exact hdone n hn
        · simp at hn
  | cons n rest ih =>
      intro done t hnd hanr hnotdone hla hlen hmem hdone hv
      have hna : n ≠ a := by
        intro h
        exact hanr (h ▸ List.mem_cons_self n rest)
      obtain ⟨hla1, hlen1, hmem1, hlkn, hframe⟩ :=
        migrateStep_facts gA a n t hlen hna hla (hv n (List.mem_cons_self n rest))
      have hndrest : rest.Nodup := (List.nodup_cons.mp hnd).2
      have hnrest : n ∉ rest := (List.nodup_cons.mp hnd).1
      have harest : a ∉ rest := fun h => hanr (List.mem_cons_of_mem _ h)
      have hres := ih (n :: done) (migrateStep gA t n) hndrest harest
        (by
          intro m hm
          simp only [List.mem_cons]
          push_neg
          exact ⟨fun h => hnrest (h ▸ hm), hnotdone m (List.mem_cons_of_mem _ hm)⟩)
        hla1 hlen1
        (by
          intro x
          rw [hmem1 x, hmem x]
          simp only [List.mem_cons]
          tauto)
        (by
          intro m hm
          rcases List.mem_cons.mp hm with rfl | hm
          · exact hlkn
          · rw [hframe m (fun h => (hnotdone n (List.mem_cons_self n rest)) (h ▸ hm))]
            exact hdone m hm)
        (by
          intro m hm
          have hmn : m ≠ n := fun h => hnrest (h ▸ hm)
          rw [hframe m hmn]
          exact hv m (List.mem_cons_of_mem _ hm))
      simp only [List.foldl_cons]
      refine ⟨hres.1, ?_, ?_⟩
      · intro x
        rw [hres.2.1 x]
        simp only [List.mem_cons]
        tauto
      · intro m hm
        apply hres.2.2
        simp only [List.mem_cons] at hm ⊢
        tauto

/-- C5: on a well-formed `BiMap` containing `a` and `b`, when the neighbor
lists are disjoint, `removeConection(a, aN, b, bN)` puts `a` into a group
whose member set is exactly `{a} ∪ aN`, and every neighbor in `aN` reports the
same group as `a`. -/
theorem C5_disconnect_isolated (s : BiMap) (a b : Nat) (aN bN : List Nat)
    (hwf : s.WF)
    (ha : (mlookup s.elementToGroup a).isSome)
    (hb : (mlookup s.elementToGroup b).isSome)
    (hn : ∀ n ∈ aN, (mlookup s.elementToGroup n).isSome)
    (hna : a ∉ aN) (hnd : aN.Nodup)
    (hdisj : ∀ x ∈ aN, x ∉ bN) :
    (∀ n ∈ aN,
      (s.removeConectionEdge a aN b bN).getGroup n =
        (s.removeConectionEdge a aN b bN).getGroup a) ∧
    (∀ x, x ∈ (s.removeConectionEdge a aN b bN).getElements
        ((s.removeConectionEdge a aN b bN).getGroup a) ↔ x = a ∨ x ∈ aN) := by
  obtain ⟨hpairwise, hrange, hmemWF, hback⟩ := hwf
  rcases Option.isSome_iff_exists.mp ha with ⟨ga, hga⟩
  have hpermA : List.Perm (List.insertionSort (· ≤ ·) aN) aN := List.perm_insertionSort _ _
  have hpermB : List.Perm (List.insertionSort (· ≤ ·) bN) bN := List.perm_insertionSort _ _
  have hint : setIntersection (List.insertionSort (· ≤ ·) aN)
      (List.insertionSort (· ≤ ·) bN) = [] := by
    rw [setIntersection_eq_nil_iff _ _ (List.sorted_insertionSort _ _)
      (List.sorted_insertionSort _ _)]
    intro x hx hxb
    exact hdisj x (hpermA.mem_iff.mp hx) (hpermB.mem_iff.mp hxb)
  have hstep : s.removeConectionEdge a aN b bN =
      (List.insertionSort (· ≤ ·) aN).foldl
        (migrateStep ((mlookup (BiMap.removeConectionOne s a).elementToGroup a).getD 0))
        (BiMap.removeConectionOne s a) := by
    unfold BiMap.removeConectionEdge
    rw [if_pos hint]
  have hapair : (a, ga) ∈ s.elementToGroup := mlookup_mem _ _ _ hga
  have hgalen : ga < s.groupToElement.length := hrange _ hapair
  have hamem : a ∈ s.groupToElement.getD ga [] := hmemWF _ hapair
  obtain ⟨gA, hla1, hlen1, hsingle, hframe1⟩ :
      ∃ gA, mlookup (BiMap.removeConectionOne s a).elementToGroup a = some gA ∧
        gA < (BiMap.removeConectionOne s a).groupToElement.length ∧
        (BiMap.removeConectionOne s a).groupToElement.getD gA [] = [a] ∧
        (∀ n, n ≠ a → mlookup (BiMap.removeConectionOne s a).elementToGroup n =
          mlookup s.elementToGroup n ∧
          (∀ v, mlookup s.elementToGroup n = some v → v ≠ gA)) := by
    by_cases hbig : 1 < (s.groupToElement.getD ga []).length
    · have hs1 : BiMap.removeConectionOne s a =
          ⟨massign s.elementToGroup a s.groupToElement.length,
           (s.groupToElement.set ga (serase a (s.groupToElement.getD ga []))) ++ [[a]]⟩ := by
        unfold BiMap.removeConectionOne
        rw [hga]
        simp only [Option.getD_some]
        rw [if_pos hbig]
        unfold BiMap.addElement
        simp only [List.length_set]
      refine ⟨s.groupToElement.length, ?_, ?_, ?_, ?_⟩
      · rw [hs1]
        show mlookup (massign s.elementToGroup a s.groupToElement.length) a = _
        rw [mlookup_massign, if_pos rfl]
      · rw [hs1]
        show s.groupToElement.length <
          ((s.groupToElement.set ga (serase a (s.groupToElement.getD ga []))) ++ [[a]]).length
        simp
      · rw [hs1]
        show ((s.groupToElement.set ga (serase a (s.groupToElement.getD ga []))) ++ [[a]]).getD
          s.groupToElement.length [] = [a]
        have hl : (s.groupToElement.set ga (serase a (s.groupToElement.getD ga []))).length
            = s.groupToElement.length := by simp
        rw [← hl, getD_append_len]
      · intro n hnne
        constructor
        · rw [hs1]
          show mlookup (massign s.elementToGroup a s.groupToElement.length) n = _
          rw [mlookup_massign, if_neg hnne]
        · intro v hv
          have := hrange _ (mlookup_mem _ _ _ hv)
          omega
    · have hs1 : BiMap.removeConectionOne s a = s := by
        unfold BiMap.removeConectionOne
        rw [hga]
        simp only [Option.getD_some]
        rw [if_neg hbig]
      have hsingleton : s.groupToElement.getD ga [] = [a] := by
        rcases hl : s.groupToElement.getD ga [] with _ | ⟨y, ys⟩
        · rw [hl] at hamem
          simp at hamem
        · rcases ys with _ | ⟨z, zs⟩
          · rw [hl] at hamem
            simp at hamem
            rw [hamem]
          · rw [hl] at hbig
            simp at hbig
      refine ⟨ga, by rw [hs1]; exact hga, by rw [hs1]; exact hgalen,
        by rw [hs1]; exact hsingleton, ?_⟩
      intro n hnne
      refine ⟨by rw [hs1], ?_⟩
      intro v hv
      intro hveq
      have hnmem : n ∈ s.groupToElement.getD v [] := hmemWF _ (mlookup_mem _ _ _ hv)
      rw [hveq, hsingleton] at hnmem
      simp at hnmem
      exact hnne hnmem
  have hgroup : (mlookup (BiMap.removeConectionOne s a).elementToGroup a).getD 0 = gA := by
    rw [hla1]
    rfl
  have hndA : (List.insertionSort (· ≤ ·) aN).Nodup := hpermA.nodup_iff.mpr hnd
  have hnaA : a ∉ List.insertionSort (· ≤ ·) aN := fun h => hna (hpermA.mem_iff.mp h)
  obtain ⟨hFa, hFmem, hFall⟩ := migrate_fold gA a (List.insertionSort (· ≤ ·) aN) []
    (BiMap.removeConectionOne s a) hndA hnaA (by simp) hla1 hlen1
    (by
      intro x
      rw [hsingle]
      simp)
    (by simp)
    (by
      intro m hm
      have hmN : m ∈ aN := hpermA.mem_iff.mp hm
      have hmna : m ≠ a := fun h => hna (h ▸ hmN)
      obtain ⟨hfr, hvne⟩ := hframe1 m hmna
      rcases Option.isSome_iff_exists.mp (hn m hmN) with ⟨v, hv⟩
      exact ⟨v, by rw [hfr]; exact hv, hvne v hv⟩)
  rw [hstep, hgroup]
  have hgF : ((List.insertionSort (· ≤ ·) aN).foldl (migrateStep gA)
      (BiMap.removeConectionOne s a)).getGroup a = gA := by
    unfold BiMap.getGroup
    rw [hFa]
    rfl
  constructor
  · intro n hnN
    rw [hgF]
    unfold BiMap.getGroup
    rw [hFall n (Or.inr (hpermA.mem_iff.mpr hnN))]
    rfl
  · intro x
    rw [hgF]
    unfold BiMap.getElements
    rw [hFmem x]
    simp only [List.mem_nil_iff, false_or]
    rw [hpermA.mem_iff]

/-- C5 witness: the path `1 – 0 – 2` in a single group; removing edge `0–1`
(whose endpoints have no common neighbor: `aN = [2]`, `bN = []`) moves `a = 0`
and its neighbor 2 into one group with member set `{0, 2}`. -/
theorem C5_disconnect_isolated_witness :
    (BiMap.mk [(0, 0), (1, 0), (2, 0)] [[0, 1, 2]]).WF ∧
    ((∀ n ∈ [2],
      ((BiMap.mk [(0, 0), (1, 0), (2, 0)] [[0, 1, 2]]).removeConectionEdge 0 [2] 1 []).getGroup n =
        ((BiMap.mk [(0, 0), (1, 0), (2, 0)] [[0, 1, 2]]).removeConectionEdge 0 [2] 1 []).getGroup 0) ∧
    (∀ x, x ∈ ((BiMap.mk [(0, 0), (1, 0), (2, 0)] [[0, 1, 2]]).removeConectionEdge 0 [2] 1 []).getElements
        (((BiMap.mk [(0, 0), (1, 0), (2, 0)] [[0, 1, 2]]).removeConectionEdge 0 [2] 1 []).getGroup 0) ↔
      x = 0 ∨ x ∈ [2])) :=
  ⟨by decide,
    C5_disconnect_isolated (BiMap.mk [(0, 0), (1, 0), (2, 0)] [[0, 1, 2]]) 0 1 [2] []
      (by decide) (by decide) (by decide) (by decide) (by decide) (by decide) (by decide)⟩

/-! ## Claim C9 -/

/-- `RemoveAtomCommand::redo` preserves the all-or-nothing shape of the
optional position column: every position access is guarded by the
length-equality check. -/
theorem removeAtom_redo_preserves (c : RemoveAtomCommand) (s : MoleculeState)
    (hcount : 1 ≤ s.atomCount) (hinv : s.AllOrNothing) :
    (c.redo s).AllOrNothing := by
  unfold RemoveAtomCommand.redo MoleculeState.AllOrNothing
  rcases hinv with hpos | hpos
  · have hne : ¬ s.positions3d.length = s.atomicNumbers.length := by
      rw [hpos]
      simp only [List.length_nil]
      unfold MoleculeState.atomCount at hcount
      omega
    by_cases hp : c.atomId ≠ s.atomCount - 1
    · rw [if_pos hp]
      simp only [List.length_set, if_neg hne]
      left
      exact hpos
    · rw [if_neg hp]
      simp only [if_neg hne]
      left
      exact hpos
  · by_cases hp : c.atomId ≠ s.atomCount - 1
    · rw [if_pos hp]
      simp only [List.length_set, if_pos hpos]
      right
      simp only [List.length_take, List.length_set, MoleculeState.atomCount]
      omega
    · rw [if_neg hp]
      simp only [if_pos hpos]
      right
      simp only [List.length_take, MoleculeState.atomCount]
      omega

/-- `RemoveAtomCommand::undo` preserves the all-or-nothing shape of the
optional position column. -/
theorem removeAtom_undo_preserves (c : RemoveAtomCommand) (s : MoleculeState)
    (hinv : s.AllOrNothing) : (c.undo s).AllOrNothing := by
  unfold RemoveAtomCommand.undo MoleculeState.AllOrNothing
  rcases hinv with hpos | hpos
  · by_cases h0 : s.positions3d.length = s.atomicNumbers.length
    · -- both empty
      by_cases hp : c.atomId ≠ (s.atomicNumbers ++ [c.atomicNumber]).length - 1
      · rw [if_pos hp]
        simp only [if_pos h0]
        right
        simp [swapWithLast, h0]
      · rw [if_neg hp]
        simp only [if_pos h0]
        right
        simp [h0]
    · by_cases hp : c.atomId ≠ (s.atomicNumbers ++ [c.atomicNumber]).length - 1
      · rw [if_pos hp]
        simp only [if_neg h0]
        have h1 : ¬ s.positions3d.length = (s.atomicNumbers ++ [c.atomicNumber]).length := by
          rw [hpos] at h0 ⊢
          simp only [List.length_nil] at h0 ⊢
          simp only [List.length_append, List.length_cons, List.length_nil]
          omega
        rw [if_neg h1]
        left
        exact hpos
      · rw [if_neg hp]
        simp only [if_neg h0]
        left
        exact hpos
  · have h0 : s.positions3d.length = s.atomicNumbers.length := hpos
    by_cases hp : c.atomId ≠ (s.atomicNumbers ++ [c.atomicNumber]).length - 1
    · rw [if_pos hp]
      simp only [if_pos h0]
      have h1 : (s.positions3d ++ [c.position3d]).length =
          (s.atomicNumbers ++ [c.atomicNumber]).length := by
        simp [h0]
      rw [if_pos h1]
      right
      unfold swapWithLast
      simp [h0]
    · rw [if_neg hp]
      simp only [if_pos h0]
      right
      simp [h0]

/-- `AddAtomCommand::redo` preserves the all-or-nothing shape, given that the
captured `usingPositions` flag was set exactly when the position column was
parallel at capture time (what `RWMolecule::addAtom` arranges per the spec). -/
theorem addAtom_redo_preserves (d : AddAtomCommand) (s : MoleculeState)
    (hflag : d.usingPositions = true ↔ s.positions3d.length = s.atomicNumbers.length)
    (hinv : s.AllOrNothing) : (d.redo s).AllOrNothing := by
  unfold AddAtomCommand.redo MoleculeState.addAtom MoleculeState.AllOrNothing
  by_cases hu : d.usingPositions
  · have hpar := hflag.mp hu
    rw [if_pos hu]
    right
    simp [hpar]
  · have hnpar : ¬ s.positions3d.length = s.atomicNumbers.length :=
      fun h => hu (hflag.mpr h)
    rcases hinv with hpos | hpos
    · rw [if_neg hu]
      left
      exact hpos
    · exact absurd hpos hnpar

/-- `AddAtomCommand::undo` = `Molecule::removeAtom` preserves the
all-or-nothing shape. -/
theorem addAtom_undo_preserves (d : AddAtomCommand) (s : MoleculeState)
    (hcount : 1 ≤ s.atomCount) (hinv : s.AllOrNothing) :
    (d.undo s).AllOrNothing := by
  unfold AddAtomCommand.undo MoleculeState.AllOrNothing
  simp only [MoleculeState.removeAtom]
  rcases hinv with hpos | hpos
  · have hne : ¬ s.positions3d.length = s.atomicNumbers.length := by
      rw [hpos]
      simp only [List.length_nil]
      unfold MoleculeState.atomCount at hcount
      omega
    by_cases hp : d.atomId ≠ s.atomCount - 1
    · rw [if_pos hp]
      simp only [List.length_set, if_neg hne]
      left
      exact hpos
    · rw [if_neg hp]
      simp only [if_neg hne]
      left
      exact hpos
  · by_cases hp : d.atomId ≠ s.atomCount - 1
    · rw [if_pos hp]
      simp only [List.length_set, if_pos hpos]
      right
      simp only [List.length_take, List.length_set, MoleculeState.atomCount]
      omega
    · rw [if_neg hp]
      simp only [if_pos hpos]
      right
      simp only [List.length_take, MoleculeState.atomCount]
      omega

/-- C9: starting from a state whose optional position column is empty or
exactly parallel, each of atom-removal redo, atom-removal undo, atom-add redo
and atom-add undo leaves the column empty or exactly parallel — never
partially filled. The add-redo case assumes the captured `usingPositions` flag
matches the parallel-length test, which is how the command is constructed. -/
theorem C9_positions_all_or_nothing (s : MoleculeState) (c : RemoveAtomCommand)
    (d : AddAtomCommand)
    (hcount : 1 ≤ s.atomCount)
    (hflag : d.usingPositions = true ↔ s.positions3d.length = s.atomicNumbers.length)
    (hinv : s.AllOrNothing) :
    (c.redo s).AllOrNothing ∧ (c.undo s).AllOrNothing ∧
    (d.redo s).AllOrNothing ∧ (d.undo s).AllOrNothing :=
  ⟨removeAtom_redo_preserves c s hcount hinv,
   removeAtom_undo_preserves c s hinv,
   addAtom_redo_preserves d s hflag hinv,
   addAtom_undo_preserves d s hcount hinv⟩

/-- C9 witness: one atom with a parallel 1-entry position column; all four
operations preserve the all-or-nothing constraint. -/
theorem C9_positions_all_or_nothing_witness :
    1 ≤ (MoleculeState.mk [6] [⟨0,0,0⟩] [] [] [] [] [0] [] [] []).atomCount ∧
    ((AddAtomCommand.mk 6 true 1 1).usingPositions = true ↔
      (MoleculeState.mk [6] [⟨0,0,0⟩] [] [] [] [] [0] [] [] []).positions3d.length =
        (MoleculeState.mk [6] [⟨0,0,0⟩] [] [] [] [] [0] [] [] []).atomicNumbers.length) ∧
    (MoleculeState.mk [6] [⟨0,0,0⟩] [] [] [] [] [0] [] [] []).AllOrNothing ∧
    (((RemoveAtomCommand.mk 0 0 6 ⟨0,0,0⟩).redo
        (MoleculeState.mk [6] [⟨0,0,0⟩] [] [] [] [] [0] [] [] [])).AllOrNothing ∧
      ((RemoveAtomCommand.mk 0 0 6 ⟨0,0,0⟩).undo
        (MoleculeState.mk [6] [⟨0,0,0⟩] [] [] [] [] [0] [] [] [])).AllOrNothing ∧
      ((AddAtomCommand.mk 6 true 1 1).redo
        (MoleculeState.mk [6] [⟨0,0,0⟩] [] [] [] [] [0] [] [] [])).AllOrNothing ∧
      ((AddAtomCommand.mk 6 true 1 1).undo
        (MoleculeState.mk [6] [⟨0,0,0⟩] [] [] [] [] [0] [] [] [])).AllOrNothing) :=
  ⟨by decide, by decide, by decide,
    C9_positions_all_or_nothing _ (RemoveAtomCommand.mk 0 0 6 ⟨0,0,0⟩)
      (AddAtomCommand.mk 6 true 1 1) (by decide) (by decide) (by decide)⟩

/-! ## Claim C8 -/

theorem getElemQ_set_self {α : Type _} (l : List α) (i : Nat) (v : α)
    (h : i < l.length) : (l.set i v)[i]? = some v := by
  simp [List.getElem?_set, h]

theorem getElemQ_set_ne {α : Type _} (l : List α) (i j : Nat) (v : α)
    (h : i ≠ j) : (l.set i v)[j]? = l[j]? := by
  simp [List.getElem?_set, h]

theorem getElemQ_append_left {α : Type _} (l m : List α) (i : Nat)
    (h : i < l.length) : (l ++ m)[i]? = l[i]? := by
  simp [List.getElem?_append, h]

theorem getElemQ_append_len {α : Type _} (l : List α) (x : α) :
    (l ++ [x])[l.length]? = some x := by
  simp

theorem findPos_beq_val (l : List Nat) (a i : Nat) (d : Nat)
    (h : findPos (fun y => y == a) l = some i) : l.getD i d = a := by
  have := findPos_some_getD (fun y => y == a) l i d h
  simpa using this

theorem findPos_beq_none (l : List Nat) (a : Nat) (h : a ∉ l) :
    findPos (fun y => y == a) l = none := by
  rw [findPos_none_iff]
  intro x hx
  simp only [beq_eq_false_iff_ne, ne_eq]
  intro hxa
  exact h (hxa ▸ hx)

/-- The "before" lookup is independent of the news column. -/
theorem lookupOld_ignores_news {V : Type _} (ids : List Nat) (olds news news2 : List V)
    (a : Nat) :
    (MergeCmd.mk ids olds news).lookupOld a = (MergeCmd.mk ids olds news2).lookupOld a := rfl

/-- Appending a new entry does not change the recorded "before" value of an
atom that was already recorded. -/
theorem mergeAppend_lookupOld {V : Type _} (c : MergeCmd V) (e : Nat × V × V)
    (a : Nat) (hmem : a ∈ c.atomIds)
    (hlen : c.olds.length = c.atomIds.length) :
    (MergeCmd.mk (c.atomIds ++ [e.1]) (c.olds ++ [e.2.1]) (c.news ++ [e.2.2])).lookupOld a
      = c.lookupOld a := by
  unfold MergeCmd.lookupOld
  rcases hi : findPos (fun y => y == a) c.atomIds with _ | i
  · rw [← findPos_isSome_iff_mem] at hmem
    rw [hi] at hmem
    simp at hmem
  · rw [findPos_append_some _ _ _ _ hi]
    have hlt : i < c.atomIds.length := findPos_some_lt _ _ _ hi
    simp only [Option.some_bind]
    exact getElemQ_append_left _ _ _ (by omega)

/-- Appending a new entry does not change the recorded "after" value of an
atom that was already recorded. -/
theorem mergeAppend_lookupNew {V : Type _} (c : MergeCmd V) (e : Nat × V × V)
    (a : Nat) (hmem : a ∈ c.atomIds)
    (hlen : c.news.length = c.atomIds.length) :
    (MergeCmd.mk (c.atomIds ++ [e.1]) (c.olds ++ [e.2.1]) (c.news ++ [e.2.2])).lookupNew a
      = c.lookupNew a := by
  unfold MergeCmd.lookupNew
  rcases hi : findPos (fun y => y == a) c.atomIds with _ | i
  · rw [← findPos_isSome_iff_mem] at hmem
    rw [hi] at hmem
    simp at hmem
  · rw [findPos_append_some _ _ _ _ hi]
    have hlt : i < c.atomIds.length := findPos_some_lt _ _ _ hi
    simp only [Option.some_bind]
    exact getElemQ_append_left _ _ _ (by omega)

/-- The entry appended for a previously unrecorded atom is found with exactly
its "before" and "after" values. -/
theorem mergeAppend_self_lookup {V : Type _} (c : MergeCmd V) (e : Nat × V × V)
    (hnot : e.1 ∉ c.atomIds)
    (ho : c.olds.length = c.atomIds.length)
    (hn : c.news.length = c.atomIds.length) :
    (MergeCmd.mk (c.atomIds ++ [e.1]) (c.olds ++ [e.2.1]) (c.news ++ [e.2.2])).lookupOld e.1
      = some e.2.1 ∧
    (MergeCmd.mk (c.atomIds ++ [e.1]) (c.olds ++ [e.2.1]) (c.news ++ [e.2.2])).lookupNew e.1
      = some e.2.2 := by
  unfold MergeCmd.lookupOld MergeCmd.lookupNew
  have hnone : findPos (fun y => y == e.1) c.atomIds = none := findPos_beq_none _ _ hnot
  have happ : findPos (fun y => y == e.1) (c.atomIds ++ [e.1]) = some c.atomIds.length := by
    rw [findPos_append_none _ _ _ hnone]
    simp [findPos]
  rw [happ]
  simp only [Option.some_bind]
  constructor
  · rw [← ho]
    exact getElemQ_append_len _ _
  · rw [← hn]
    exact getElemQ_append_len _ _

/-- Appending an entry for one atom leaves all other unrecorded atoms
unrecorded. -/
theorem mergeAppend_lookup_other {V : Type _} (c : MergeCmd V) (e : Nat × V × V)
    (a : Nat) (hne : a ≠ e.1) (hnot : a ∉ c.atomIds) :
    (MergeCmd.mk (c.atomIds ++ [e.1]) (c.olds ++ [e.2.1]) (c.news ++ [e.2.2])).lookupOld a
      = none ∧
    (MergeCmd.mk (c.atomIds ++ [e.1]) (c.olds ++ [e.2.1]) (c.news ++ [e.2.2])).lookupNew a
      = none := by
  unfold MergeCmd.lookupOld MergeCmd.lookupNew
  have hnone : findPos (fun y => y == a) (c.atomIds ++ [e.1]) = none := by
    apply findPos_beq_none
    simp only [List.mem_append, List.mem_cons, List.mem_nil_iff]
    push_neg
    exact ⟨hnot, hne, not_false⟩
  rw [hnone]
  exact ⟨rfl, rfl⟩

/-- Overwriting the "after" slot at the offset found for an atom makes its
"after" lookup return the new value. -/
theorem mergeSet_lookupNew_self {V : Type _} (c : MergeCmd V) (off : Nat) (x : V)
    (a : Nat) (hoff : findPos (fun y => y == a) c.atomIds = some off)
    (hn : c.news.length = c.atomIds.length) :
    (MergeCmd.mk c.atomIds c.olds (c.news.set off x)).lookupNew a = some x := by
  unfold MergeCmd.lookupNew
  rw [hoff]
  simp only [Option.some_bind]
  apply getElemQ_set_self
  have := findPos_some_lt _ _ _ hoff
  omega

/-- Overwriting one atom's "after" slot does not change any other atom's
"after" lookup. -/
theorem mergeSet_lookupNew_ne {V : Type _} (c : MergeCmd V) (off : Nat) (x : V)
    (a b : Nat) (hoff : findPos (fun y => y == b) c.atomIds = some off)
    (hab : a ≠ b) :
    (MergeCmd.mk c.atomIds c.olds (c.news.set off x)).lookupNew a = c.lookupNew a := by
  unfold MergeCmd.lookupNew
  rcases hi : findPos (fun y => y == a) c.atomIds with _ | i
  · rfl
  · simp only [Option.some_bind]
    apply getElemQ_set_ne
    intro h
    subst h
    have hva : c.atomIds.getD off 0 = a := findPos_beq_val _ _ _ _ hi
    have hvb : c.atomIds.getD off 0 = b := findPos_beq_val _ _ _ _ hoff
    exact hab (hva ▸ hvb ▸ rfl)

/-- A scan for an id that no entry carries returns nothing. -/
theorem find_head_none {V : Type _} (es : List (Nat × V × V)) (a : Nat)
    (h : ∀ e ∈ es, e.1 ≠ a) : es.find? (fun e => e.1 == a) = none := by
  induction es with
  | nil => rfl
  | cons e rest ih =>
      have h1 : ((e.1 == a) : Bool) = false := by
        simp only [beq_eq_false_iff_ne, ne_eq]
        exact h e (List.mem_cons_self e rest)
      rw [List.find?_cons_of_neg _ (by simp [h1])]
      exact ih (fun x hx => h x (List.mem_cons_of_mem _ hx))

/-- Scanning the zipped (id, before, after) triples of a well-formed command
for an id agrees with the command's own lookups. -/
theorem zip_find_lookup {V : Type _} (ids : List Nat) (olds news : List V)
    (a : Nat) (ho : olds.length = ids.length) (hn : news.length = ids.length) :
    (((ids.zip (olds.zip news)).find? (fun e => e.1 == a)).map (fun e => e.2.1) =
      (MergeCmd.mk ids olds news).lookupOld a) ∧
    (((ids.zip (olds.zip news)).find? (fun e => e.1 == a)).map (fun e => e.2.2) =
      (MergeCmd.mk ids olds news).lookupNew a) := by
  induction ids generalizing olds news with
  | nil =>
      simp [MergeCmd.lookupOld, MergeCmd.lookupNew, findPos]
  | cons i is ih =>
      rcases olds with _ | ⟨o, os⟩
      · simp at ho
      · rcases news with _ | ⟨n, ns⟩
        · simp at hn
        · simp only [List.length_cons] at ho hn
          have hos : os.length = is.length := by omega
          have hns : ns.length = is.length := by omega
          by_cases hia : i = a
          · subst hia
            rw [List.zip_cons_cons, List.zip_cons_cons]
            rw [List.find?_cons_of_pos _ (by simp)]
            unfold MergeCmd.lookupOld MergeCmd.lookupNew
            simp [findPos]
          · rw [List.zip_cons_cons, List.zip_cons_cons]
            rw [List.find?_cons_of_neg _ (by simp [hia])]
            obtain ⟨ih1, ih2⟩ := ih os ns hos hns
            simp only [MergeCmd.lookupOld, MergeCmd.lookupNew] at ih1 ih2 ⊢
            have hb : ((i == a) : Bool) = false := by simp [hia]
            simp only [findPos, hb, Bool.false_eq_true, if_false]
            constructor
            · rw [ih1]
              cases findPos (fun y => y == a) is <;> simp
            · rw [ih2]
              cases findPos (fun y => y == a) is <;> simp

/-- Invariant of the `mergeWith` loop: folding the incoming entries into a
well-formed command appends exactly the ids not yet recorded, never touches a
recorded "before" value, and gives each incoming atom the incoming "after"
value (the latest one, since the incoming ids are distinct). -/
theorem mergeFold_facts {V : Type _} (es : List (Nat × V × V)) :
    ∀ c : MergeCmd V,
    c.olds.length = c.atomIds.length →
    c.news.length = c.atomIds.length →
    c.atomIds.Nodup →
    (es.map (fun e => e.1)).Nodup →
    (es.foldl mergeStep c).atomIds =
      c.atomIds ++ (es.map (fun e => e.1)).filter (fun x => decide (x ∉ c.atomIds)) ∧
    (∀ a ∈ c.atomIds, (es.foldl mergeStep c).lookupOld a = c.lookupOld a) ∧
    (∀ a, (es.foldl mergeStep c).lookupNew a =
      (match es.find? (fun e => e.1 == a) with
      | some e => some e.2.2
      | none => c.lookupNew a)) ∧
    (∀ a, a ∉ c.atomIds → (es.foldl mergeStep c).lookupOld a =
      (es.find? (fun e => e.1 == a)).map (fun e => e.2.1)) := by
  induction es with
  | nil =>
      intro c ho hn hnd _
      refine ⟨by simp, fun a _ => rfl, fun a => rfl, ?_⟩
      intro a hnot
      simp only [List.foldl_nil]
      unfold MergeCmd.lookupOld
      rw [findPos_beq_none _ _ hnot]
      rfl
  | cons e rest ih =>
      intro c ho hn hnd hes
      simp only [List.map_cons, List.nodup_cons] at hes
      obtain ⟨henot, hrestnd⟩ := hes
      simp only [List.foldl_cons, List.map_cons]
      rcases hoff : findPos (fun y => y == e.1) c.atomIds with _ | off
      · -- e.1 not recorded: append the whole entry
        have hnot : e.1 ∉ c.atomIds := by
          rw [← findPos_isSome_iff_mem, hoff]
          simp
        have hstep : mergeStep c e =
            MergeCmd.mk (c.atomIds ++ [e.1]) (c.olds ++ [e.2.1]) (c.news ++ [e.2.2]) := by
          unfold mergeStep
          rw [hoff]
        rw [hstep]
        have hnd1 : (c.atomIds ++ [e.1]).Nodup := by
          rw [List.nodup_append]
          exact ⟨hnd, List.nodup_singleton _, by simpa using hnot⟩
        obtain ⟨ih1, ih2, ih3, ih4⟩ := ih
          (MergeCmd.mk (c.atomIds ++ [e.1]) (c.olds ++ [e.2.1]) (c.news ++ [e.2.2]))
          (by simp [ho]) (by simp [hn]) hnd1 hrestnd
        simp only at ih1 ih2 ih3 ih4
        refine ⟨?_, ?_, ?_, ?_⟩
        · rw [ih1]
          have hfeq : (rest.map (fun e => e.1)).filter
              (fun x => decide (x ∉ c.atomIds ++ [e.1])) =
              (rest.map (fun e => e.1)).filter (fun x => decide (x ∉ c.atomIds)) := by
            apply List.filter_congr
            intro x hx
            have hxne : x ≠ e.1 := fun h => henot (h ▸ hx)
            simp [hxne]
          rw [hfeq]
          have hcons : List.filter (fun x => decide (x ∉ c.atomIds))
              (e.1 :: rest.map (fun e => e.1)) =
              e.1 :: List.filter (fun x => decide (x ∉ c.atomIds))
                (rest.map (fun e => e.1)) := by
            rw [List.filter_cons]
            simp [hnot]
          rw [hcons]
          simp
        · intro a hmem
          rw [ih2 a (List.mem_append_left _ hmem)]
          exact mergeAppend_lookupOld c e a hmem ho
        · intro a
          rw [ih3 a]
          by_cases hae : a = e.1
          · have hfind : rest.find? (fun x => x.1 == a) = none := by
              apply find_head_none
              intro x hx h
              have hxm : x.1 ∈ rest.map (fun e => e.1) := List.mem_map_of_mem _ hx
              rw [h, hae] at hxm
              exact henot hxm
            rw [hfind]
            rw [List.find?_cons_of_pos _ (by simp [hae])]
            simp only
            rw [hae]
            exact (mergeAppend_self_lookup c e hnot ho hn).2
          · rw [List.find?_cons_of_neg _
              (by simp only [beq_iff_eq]; exact fun h => hae h.symm)]
            rcases hfind : rest.find? (fun x => x.1 == a) with _ | e2
            · rw [hfind]
              simp only
              by_cases hmem : a ∈ c.atomIds
              · exact mergeAppend_lookupNew c e a hmem hn
              · rw [(mergeAppend_lookup_other c e a hae hmem).2]
                unfold MergeCmd.lookupNew
                rw [findPos_beq_none _ _ hmem]
                rfl
            · rw [hfind]
        · intro a hnotm
          by_cases hae : a = e.1
          · rw [ih2 a (by simp [hae])]
            rw [List.find?_cons_of_pos _ (by simp [hae])]
            rw [hae]
            exact (mergeAppend_self_lookup c e hnot ho hn).1
          · have hnm1 : a ∉ c.atomIds ++ [e.1] := by
              simp only [List.mem_append, List.mem_cons, List.mem_nil_iff]
              push_neg
              exact ⟨hnotm, hae, not_false⟩
            rw [ih4 a hnm1]
            rw [List.find?_cons_of_neg _
              (by simp only [beq_iff_eq]; exact fun h => hae h.symm)]
      · -- e.1 already recorded at offset `off`: overwrite the "after" value
        have hmem_e : e.1 ∈ c.atomIds := by
          rw [← findPos_isSome_iff_mem, hoff]
          rfl
        have hstep : mergeStep c e =
            MergeCmd.mk c.atomIds c.olds (c.news.set off e.2.2) := by
          unfold mergeStep
          rw [hoff]
        rw [hstep]
        obtain ⟨ih1, ih2, ih3, ih4⟩ := ih
          (MergeCmd.mk c.atomIds c.olds (c.news.set off e.2.2))
          ho (by simp [hn]) hnd hrestnd
        simp only at ih1 ih2 ih3 ih4
        refine ⟨?_, ?_, ?_, ?_⟩
        · rw [ih1]
          have hdrop : List.filter (fun x => decide (x ∉ c.atomIds))
              (e.1 :: rest.map (fun e => e.1)) =
              List.filter (fun x => decide (x ∉ c.atomIds))
                (rest.map (fun e => e.1)) := by
            rw [List.filter_cons]
            simp [hmem_e]
          rw [hdrop]
        · intro a hmem
          rw [ih2 a hmem]
          rfl
        · intro a
          rw [ih3 a]
          by_cases hae : a = e.1
          · have hfind : rest.find? (fun x => x.1 == a) = none := by
              apply find_head_none
              intro x hx h
              have hxm : x.1 ∈ rest.map (fun e => e.1) := List.mem_map_of_mem _ hx
              rw [h, hae] at hxm
              exact henot hxm
            rw [hfind]
            rw [List.find?_cons_of_pos _ (by simp [hae])]
            simp only
            have hoffa : findPos (fun y => y == a) c.atomIds = some off := by
              rw [hae]
              exact hoff
            exact mergeSet_lookupNew_self c off e.2.2 a hoffa hn
          · rw [List.find?_cons_of_neg _
              (by simp only [beq_iff_eq]; exact fun h => hae h.symm)]
            rcases hfind : rest.find? (fun x => x.1 == a) with _ | e2
            · rw [hfind]
              simp only
              exact mergeSet_lookupNew_ne c off e.2.2 a e.1 hoff hae
            · rw [hfind]
        · intro a hnotm
          rw [ih4 a hnotm]
          have hae : a ≠ e.1 := fun h => hnotm (h ▸ hmem_e)
          rw [List.find?_cons_of_neg _
            (by simp only [beq_iff_eq]; exact fun h => hae h.symm)]

/-- Scanning for an id that some entry carries returns something. -/
theorem find_fst_isSome {V : Type _} (es : List (Nat × V × V)) (a : Nat)
    (h : a ∈ es.map (fun e => e.1)) : (es.find? (fun e => e.1 == a)).isSome := by
  induction es with
  | nil => simp at h
  | cons e rest ih =>
      by_cases hea : e.1 = a
      · rw [List.find?_cons_of_pos _ (by simp [hea])]
        rfl
      · rw [List.find?_cons_of_neg _ (by simp [hea])]
        apply ih
        simp only [List.map_cons, List.mem_cons] at h
        rcases h with h | h
        · exact absurd h.symm hea
        · exact h

/-- C8: a successful `mergeWith` of two well-formed multi-atom commands
(parallel arrays, distinct atom ids) appends an (atomId, before, after) entry
for each incoming atom not yet recorded, and for atoms already recorded
overwrites only the "after" value with the incoming one, keeping the "before"
value — so one undo restores each atom's original pre-gesture value. This is
the shared merge loop of `SetPosition3dCommand::mergeWith` and
`SetForceVectorCommand::mergeWith`. -/
theorem C8_mergeWith {V : Type _} (self other : MergeCmd V)
    (hso : self.olds.length = self.atomIds.length)
    (hsn : self.news.length = self.atomIds.length)
    (hsd : self.atomIds.Nodup)
    (hoo : other.olds.length = other.atomIds.length)
    (hon : other.news.length = other.atomIds.length)
    (hod : other.atomIds.Nodup) :
    ∃ r, self.mergeWith other = some r ∧
      r.atomIds = self.atomIds ++
        other.atomIds.filter (fun x => decide (x ∉ self.atomIds)) ∧
      (∀ a ∈ self.atomIds, r.lookupOld a = self.lookupOld a) ∧
      (∀ a ∈ self.atomIds, a ∉ other.atomIds → r.lookupNew a = self.lookupNew a) ∧
      (∀ a ∈ other.atomIds, r.lookupNew a = other.lookupNew a) ∧
      (∀ a ∈ other.atomIds, a ∉ self.atomIds → r.lookupOld a = other.lookupOld a) := by
  have hzlen : (other.olds.zip other.news).length = other.atomIds.length := by
    simp [hoo, hon]
  have hmapfst : (other.atomIds.zip (other.olds.zip other.news)).map (fun e => e.1)
      = other.atomIds := by
    simpa using List.map_fst_zip other.atomIds (other.olds.zip other.news) (by omega)
  have hesnd : ((other.atomIds.zip (other.olds.zip other.news)).map (fun e => e.1)).Nodup := by
    rw [hmapfst]
    exact hod
  obtain ⟨h1, h2, h3, h4⟩ :=
    mergeFold_facts (other.atomIds.zip (other.olds.zip other.news)) self hso hsn hsd hesnd
  refine ⟨_, ?_, ?_, h2, ?_, ?_, ?_⟩
  · unfold MergeCmd.mergeWith
    rw [if_pos ⟨hoo, hon⟩]
  · rw [h1, hmapfst]
  · intro a hmem hnoto
    rw [h3 a]
    have hfind : (other.atomIds.zip (other.olds.zip other.news)).find?
        (fun e => e.1 == a) = none := by
      apply find_head_none
      intro x hx h
      apply hnoto
      rw [← hmapfst]
      rw [← h]
      exact List.mem_map_of_mem _ hx
    rw [hfind]
  · intro a hmem
    have hsome : ((other.atomIds.zip (other.olds.zip other.news)).find?
        (fun e => e.1 == a)).isSome :=
      find_fst_isSome _ a (by rw [hmapfst]; exact hmem)
    rcases hf : (other.atomIds.zip (other.olds.zip other.news)).find?
        (fun e => e.1 == a) with _ | e0
    · rw [hf] at hsome
      exact Bool.noConfusion hsome
    · rw [h3 a, hf]
      have hz := (zip_find_lookup other.atomIds other.olds other.news a hoo hon).2
      rw [hf] at hz
      exact hz
  · intro a hmem hnots
    rw [h4 a hnots]
    exact (zip_find_lookup other.atomIds other.olds other.news a hoo hon).1

/-- C8 witness: merging a two-entry incoming command into a one-entry command
with an overlapping atom id. -/
theorem C8_mergeWith_witness :
    (MergeCmd.mk [3] [Vec3.mk 0 0 0] [Vec3.mk 1 0 0]).olds.length =
      (MergeCmd.mk [3] [Vec3.mk 0 0 0] [Vec3.mk 1 0 0]).atomIds.length ∧
    (MergeCmd.mk [3] [Vec3.mk 0 0 0] [Vec3.mk 1 0 0]).news.length =
      (MergeCmd.mk [3] [Vec3.mk 0 0 0] [Vec3.mk 1 0 0]).atomIds.length ∧
    (MergeCmd.mk [3] [Vec3.mk 0 0 0] [Vec3.mk 1 0 0]).atomIds.Nodup ∧
    (MergeCmd.mk ([3, 4] : List Nat) [Vec3.mk 2 0 0, Vec3.mk 7 7 7]
        [Vec3.mk 3 0 0, Vec3.mk 9 9 9]).atomIds.Nodup ∧
    ∃ r, (MergeCmd.mk [3] [Vec3.mk 0 0 0] [Vec3.mk 1 0 0]).mergeWith
        (MergeCmd.mk [3, 4] [Vec3.mk 2 0 0, Vec3.mk 7 7 7]
          [Vec3.mk 3 0 0, Vec3.mk 9 9 9]) = some r ∧
      r.atomIds = (MergeCmd.mk [3] [Vec3.mk 0 0 0] [Vec3.mk 1 0 0]).atomIds ++
        (MergeCmd.mk ([3, 4] : List Nat) [Vec3.mk 2 0 0, Vec3.mk 7 7 7]
          [Vec3.mk 3 0 0, Vec3.mk 9 9 9]).atomIds.filter
          (fun x => decide (x ∉ (MergeCmd.mk [3]
            [Vec3.mk 0 0 0] [Vec3.mk 1 0 0]).atomIds)) ∧
      (∀ a ∈ (MergeCmd.mk [3] [Vec3.mk 0 0 0] [Vec3.mk 1 0 0]).atomIds,
        r.lookupOld a = (MergeCmd.mk [3] [Vec3.mk 0 0 0] [Vec3.mk 1 0 0]).lookupOld a) ∧
      (∀ a ∈ (MergeCmd.mk [3] [Vec3.mk 0 0 0] [Vec3.mk 1 0 0]).atomIds,
        a ∉ (MergeCmd.mk ([3, 4] : List Nat) [Vec3.mk 2 0 0, Vec3.mk 7 7 7]
          [Vec3.mk 3 0 0, Vec3.mk 9 9 9]).atomIds →
        r.lookupNew a = (MergeCmd.mk [3] [Vec3.mk 0 0 0] [Vec3.mk 1 0 0]).lookupNew a) ∧
      (∀ a ∈ (MergeCmd.mk ([3, 4] : List Nat) [Vec3.mk 2 0 0, Vec3.mk 7 7 7]
          [Vec3.mk 3 0 0, Vec3.mk 9 9 9]).atomIds,
        r.lookupNew a = (MergeCmd.mk ([3, 4] : List Nat) [Vec3.mk 2 0 0, Vec3.mk 7 7 7]
          [Vec3.mk 3 0 0, Vec3.mk 9 9 9]).lookupNew a) ∧
      (∀ a ∈ (MergeCmd.mk ([3, 4] : List Nat) [Vec3.mk 2 0 0, Vec3.mk 7 7 7]
          [Vec3.mk 3 0 0, Vec3.mk 9 9 9]).atomIds,
        a ∉ (MergeCmd.mk [3] [Vec3.mk 0 0 0] [Vec3.mk 1 0 0]).atomIds →
        r.lookupOld a = (MergeCmd.mk ([3, 4] : List Nat) [Vec3.mk 2 0 0, Vec3.mk 7 7 7]
          [Vec3.mk 3 0 0, Vec3.mk 9 9 9]).lookupOld a) :=
  ⟨by decide, by decide, by decide, by decide,
    C8_mergeWith (MergeCmd.mk [3] [Vec3.mk 0 0 0] [Vec3.mk 1 0 0])
      (MergeCmd.mk [3, 4] [Vec3.mk 2 0 0, Vec3.mk 7 7 7] [Vec3.mk 3 0 0, Vec3.mk 9 9 9])
      (by decide) (by decide) (by decide) (by decide) (by decide) (by decide)⟩

/-! ## Claim C2 -/

/-- C2 counterexample: two atoms whose hybridization values differ (5 at
position 0, 7 at position 1); removing atom 0 leaves the hybridization column
untouched, so position 0 still holds 5, not the value 7 copied from the last
position as the claim requires. -/
theorem C2_counterexample :
    ¬ ((RemoveAtomCommand.redo ⟨0, 0, 1, ⟨0, 0, 0⟩⟩
        { atomicNumbers := [1, 6],
          positions3d := [⟨0, 0, 0⟩, ⟨1, 1, 1⟩],
          hybridizations := [5, 7], formalCharges := [2, 3],
          colors := [⟨9, 9, 9⟩, ⟨8, 8, 8⟩], forceVectors := [⟨1, 2, 3⟩, ⟨4, 5, 6⟩],
          atomUniqueIds := [0, 1], bondPairs := [], bondOrders := [],
          bondUniqueIds := [] }).hybridizations.getD 0 0 =
      ({ atomicNumbers := [1, 6],
          positions3d := [⟨0, 0, 0⟩, ⟨1, 1, 1⟩],
          hybridizations := [5, 7], formalCharges := [2, 3],
          colors := [⟨9, 9, 9⟩, ⟨8, 8, 8⟩], forceVectors := [⟨1, 2, 3⟩, ⟨4, 5, 6⟩],
          atomUniqueIds := [0, 1], bondPairs := [], bondOrders := [],
          bondUniqueIds := [] } : MoleculeState).hybridizations.getD 1 0) := by
  decide

/-- C2 amended: removing the atom at a non-last position `p` copies the
atomic-number and (parallel) 3-D position values from the last position into
`p`, rewrites every bond endpoint referencing the last position to `p`,
rebinds the UniqueId `w0` that pointed to the last position so it points to
`p`, and truncates both columns — but the hybridization, formal-charge, color
and force-vector columns are left entirely unchanged (not compacted). -/
theorem C2_amended_compaction (c : RemoveAtomCommand) (s : MoleculeState) (w0 : Nat)
    (hcount : 2 ≤ s.atomCount)
    (hp : c.atomId < s.atomCount - 1)
    (hpos : s.positions3d.length = s.atomicNumbers.length)
    (hbound : s.atomCount < MaxIndex)
    (huid : c.atomUid < s.atomUniqueIds.length)
    (huidv : s.atomUniqueIds.getD c.atomUid MaxIndex = c.atomId)
    (hw0 : w0 < s.atomUniqueIds.length)
    (hw0v : s.atomUniqueIds.getD w0 MaxIndex = s.atomCount - 1)
    (hw0u : ∀ j < s.atomUniqueIds.length,
      s.atomUniqueIds.getD j MaxIndex = s.atomCount - 1 → j = w0) :
    (c.redo s).atomicNumbers.getD c.atomId 0 =
      s.atomicNumbers.getD (s.atomCount - 1) 0 ∧
    (c.redo s).positions3d.getD c.atomId Vec3.zero =
      s.positions3d.getD (s.atomCount - 1) Vec3.zero ∧
    (c.redo s).atomicNumbers.length = s.atomCount - 1 ∧
    (c.redo s).positions3d.length = s.atomCount - 1 ∧
    (∀ i < s.bondPairs.length,
      (c.redo s).bondPairs.getD i (0, 0) =
        (if (s.bondPairs.getD i (0, 0)).1 = s.atomCount - 1 then
          (c.atomId, (s.bondPairs.getD i (0, 0)).2)
        else if (s.bondPairs.getD i (0, 0)).2 = s.atomCount - 1 then
          ((s.bondPairs.getD i (0, 0)).1, c.atomId)
        else s.bondPairs.getD i (0, 0))) ∧
    (c.redo s).atomUniqueIds.getD w0 MaxIndex = c.atomId ∧
    (c.redo s).hybridizations = s.hybridizations ∧
    (c.redo s).formalCharges = s.formalCharges ∧
    (c.redo s).colors = s.colors ∧
    (c.redo s).forceVectors = s.forceVectors := by
  simp only [MoleculeState.atomCount] at hcount hp hbound hw0v hw0u ⊢
  have hne : c.atomId ≠ s.atomicNumbers.length - 1 := by omega
  have hw0uid : w0 ≠ c.atomUid := by
    intro h
    rw [h, huidv] at hw0v
    omega
  have hfind : findPos (fun v => v == s.atomicNumbers.length - 1)
      (s.atomUniqueIds.set c.atomUid MaxIndex) = some w0 := by
    apply findPos_eq_some_unique _ _ _ MaxIndex
    · simpa using hw0
    · rw [getD_set_ne _ _ _ _ _ (fun h => hw0uid h.symm)]
      rw [hw0v]
      simp
    · intro j hj hval
      simp only [List.length_set] at hj
      by_cases hjc : j = c.atomUid
      · rw [hjc, getD_set_self _ _ _ _ huid] at hval
        simp only [beq_iff_eq] at hval
        have hmax : MaxIndex = 18446744073709551615 := rfl
        rw [hmax] at hval hbound
        omega
      · rw [getD_set_ne _ _ _ _ _ (fun h => hjc h.symm)] at hval
        simp only [beq_iff_eq] at hval
        exact hw0u j hj hval
  have hstep : c.redo s =
      { s with
        atomicNumbers := (s.atomicNumbers.set c.atomId
          (s.atomicNumbers.getLastD 0)).take (s.atomicNumbers.length - 1),
        positions3d := (s.positions3d.set c.atomId
          (s.positions3d.getLastD Vec3.zero)).take (s.atomicNumbers.length - 1),
        bondPairs := rewriteEndpoints s.bondPairs (s.atomicNumbers.length - 1) c.atomId,
        atomUniqueIds := (s.atomUniqueIds.set c.atomUid MaxIndex).set w0 c.atomId } := by
    unfold RemoveAtomCommand.redo MoleculeState.atomCount
    rw [if_pos hne, hfind]
    simp only [Option.getD_some, if_pos hpos]
    rw [if_pos (by simp [hpos])]
  rw [hstep]
  refine ⟨?_, ?_, ?_, ?_, ?_, ?_, rfl, rfl, rfl, rfl⟩
  · rw [getD_take _ _ _ _ hp, getD_set_self _ _ _ _ (by omega), getLastD_eq_getD]
  · rw [getD_take _ _ _ _ hp, getD_set_self _ _ _ _ (by omega), getLastD_eq_getD, hpos]
  · simp only [List.length_take, List.length_set]
    omega
  · simp only [List.length_take, List.length_set]
    omega
  · intro i hi
    unfold rewriteEndpoints
    rw [getD_lt _ _ _ (by simpa using hi), getD_lt _ _ _ hi, List.getElem_map]
  · rw [getD_set_self _ _ _ _ (by simpa using hw0)]

/-- C2 amended witness: three atoms with a bond `(1,2)`; removing atom 0 at
uid 0 with the last atom's uid being 2. -/
theorem C2_amended_compaction_witness :
    2 ≤ (MoleculeState.mk [6, 7, 8] [⟨0,0,0⟩, ⟨1,0,0⟩, ⟨2,0,0⟩] [] [] [] []
        [0, 1, 2] [(1, 2)] [1] [0]).atomCount ∧
    (0 : Nat) < (MoleculeState.mk [6, 7, 8] [⟨0,0,0⟩, ⟨1,0,0⟩, ⟨2,0,0⟩] [] [] [] []
        [0, 1, 2] [(1, 2)] [1] [0]).atomCount - 1 ∧
    ((RemoveAtomCommand.mk 0 0 6 ⟨0,0,0⟩).redo
        (MoleculeState.mk [6, 7, 8] [⟨0,0,0⟩, ⟨1,0,0⟩, ⟨2,0,0⟩] [] [] [] []
          [0, 1, 2] [(1, 2)] [1] [0])).atomicNumbers.getD 0 0 =
      (MoleculeState.mk [6, 7, 8] [⟨0,0,0⟩, ⟨1,0,0⟩, ⟨2,0,0⟩] [] [] [] []
        [0, 1, 2] [(1, 2)] [1] [0]).atomicNumbers.getD
        ((MoleculeState.mk [6, 7, 8] [⟨0,0,0⟩, ⟨1,0,0⟩, ⟨2,0,0⟩] [] [] [] []
          [0, 1, 2] [(1, 2)] [1] [0]).atomCount - 1) 0 ∧
    ((RemoveAtomCommand.mk 0 0 6 ⟨0,0,0⟩).redo
        (MoleculeState.mk [6, 7, 8] [⟨0,0,0⟩, ⟨1,0,0⟩, ⟨2,0,0⟩] [] [] [] []
          [0, 1, 2] [(1, 2)] [1] [0])).atomUniqueIds.getD 2 MaxIndex = 0 ∧
    ((RemoveAtomCommand.mk 0 0 6 ⟨0,0,0⟩).redo
        (MoleculeState.mk [6, 7, 8] [⟨0,0,0⟩, ⟨1,0,0⟩, ⟨2,0,0⟩] [] [] [] []
          [0, 1, 2] [(1, 2)] [1] [0])).hybridizations =
      (MoleculeState.mk [6, 7, 8] [⟨0,0,0⟩, ⟨1,0,0⟩, ⟨2,0,0⟩] [] [] [] []
        [0, 1, 2] [(1, 2)] [1] [0]).hybridizations := by
  have h := C2_amended_compaction (RemoveAtomCommand.mk 0 0 6 ⟨0,0,0⟩)
    (MoleculeState.mk [6, 7, 8] [⟨0,0,0⟩, ⟨1,0,0⟩, ⟨2,0,0⟩] [] [] [] []
      [0, 1, 2] [(1, 2)] [1] [0]) 2
    (by decide) (by decide) (by decide) (by decide) (by decide) (by decide)
    (by decide) (by decide) (by decide)
  exact ⟨by decide, by decide, h.1, h.2.2.2.2.2.1, h.2.2.2.2.2.2.1⟩

/-! ## Claim C1 -/

/-- Reading an appended singleton at the prefix length. -/
theorem getD_append_at {α : Type _} (l : List α) (x d : α) (i : Nat)
    (h : i = l.length) : (l ++ [x]).getD i d = x := by
  rw [h]
  exact getD_append_len l x d

/-- Splitting a nonempty list into its front and its last element. -/
theorem take_last_append {α : Type _} (l : List α) (d : α) (h : 0 < l.length) :
    l.take (l.length - 1) ++ [l.getD (l.length - 1) d] = l := by
  apply ext_of_getD _ _ d
  · simp only [List.length_append, List.length_take, List.length_cons, List.length_nil]
    omega
  · intro i hi
    simp only [List.length_append, List.length_take, List.length_cons,
      List.length_nil] at hi
    by_cases hilast : i < l.length - 1
    · rw [getD_append_left _ _ _ _ (by simp; omega), getD_take _ _ _ _ hilast]
    · have hieq : i = l.length - 1 := by omega
      rw [getD_append_at _ _ _ _ (by simp; omega), hieq]

/-- Writing back the value already stored is the identity. -/
theorem set_getD_self {α : Type _} (l : List α) (i : Nat) (d : α)
    (h : i < l.length) : l.set i (l.getD i d) = l := by
  apply ext_of_getD _ _ d (by simp)
  intro j hj
  by_cases hij : i = j
  · rw [← hij, getD_set_self _ _ _ _ h]
  · rw [getD_set_ne _ _ _ _ _ hij]

/-- `swapWithLast` preserves the length. -/
theorem swapWithLast_length {α : Type _} (L : List α) (p : Nat) (d : α) :
    (swapWithLast L p d).length = L.length := by
  unfold swapWithLast
  simp

/-- Pointwise description of `swapWithLast`. -/
theorem swapWithLast_getD {α : Type _} (L : List α) (p : Nat) (d : α)
    (hp : p < L.length) (j : Nat) (hj : j < L.length) :
    (swapWithLast L p d).getD j d =
      if j = L.length - 1 then L.getD p d
      else if j = p then L.getD (L.length - 1) d
      else L.getD j d := by
  unfold swapWithLast
  by_cases hjlast : j = L.length - 1
  · rw [if_pos hjlast, hjlast,
      getD_set_self _ _ _ _ (by simp; omega)]
  · rw [if_neg hjlast, getD_set_ne _ _ _ _ _ (fun hh => hjlast hh.symm)]
    by_cases hjp : j = p
    · rw [if_pos hjp, ← hjp, getD_set_self _ _ _ _ (by omega), getLastD_eq_getD]
    · rw [if_neg hjp, getD_set_ne _ _ _ _ _ (fun hh => hjp hh.symm)]

/-- Undoing a swap-with-last compaction: swapping the removed value (appended
at the back) with slot `p` of the compacted array restores the original
array. -/
theorem swap_restore {α : Type _} (l : List α) (p : Nat) (d : α)
    (hp : p < l.length - 1) :
    swapWithLast ((l.set p (l.getD (l.length - 1) d)).take (l.length - 1) ++
      [l.getD p d]) p d = l := by
  have hn : 2 ≤ l.length := by omega
  have hlenL : ((l.set p (l.getD (l.length - 1) d)).take (l.length - 1) ++
      [l.getD p d]).length = l.length := by
    simp only [List.length_append, List.length_take, List.length_set,
      List.length_cons, List.length_nil]
    omega
  have hgetL : ∀ i < l.length,
      ((l.set p (l.getD (l.length - 1) d)).take (l.length - 1) ++
        [l.getD p d]).getD i d =
      if i = l.length - 1 then l.getD p d
      else if i = p then l.getD (l.length - 1) d
      else l.getD i d := by
    intro i hi
    have hlt1 : i = ((l.set p (l.getD (l.length - 1) d)).take (l.length - 1)).length ↔
        i = l.length - 1 := by
      simp only [List.length_take, List.length_set]
      omega
    by_cases hilast : i = l.length - 1
    · rw [getD_append_at _ _ _ _ (hlt1.mpr hilast), if_pos hilast]
    · have hilt : i < l.length - 1 := by omega
      have hlt2 : i < ((l.set p (l.getD (l.length - 1) d)).take (l.length - 1)).length := by
        simp only [List.length_take, List.length_set]
        omega
      rw [if_neg hilast, getD_append_left _ _ _ _ hlt2, getD_take _ _ _ _ hilt]
      by_cases hip : i = p
      · rw [if_pos hip, ← hip, getD_set_self _ _ _ _ (by omega)]
      · rw [if_neg hip, getD_set_ne _ _ _ _ _ (fun hh => hip hh.symm)]
  apply ext_of_getD _ _ d
  · rw [swapWithLast_length, hlenL]
  · intro j hj
    rw [swapWithLast_length, hlenL] at hj
    rw [swapWithLast_getD _ _ _ (by rw [hlenL]; omega) _ (by rw [hlenL]; exact hj),
      hlenL]
    by_cases hjlast : j = l.length - 1
    · rw [if_pos hjlast, hgetL p (by omega), if_neg (by omega), if_pos rfl, hjlast]
    · rw [if_neg hjlast]
      by_cases hjp : j = p
      · rw [if_pos hjp, hgetL _ (by omega : l.length - 1 < l.length),
          if_pos rfl, hjp]
      · rw [if_neg hjp, hgetL j hj, if_neg hjlast, if_neg hjp]

/-- Rewriting endpoints `q` to `p` and then `p` back to `q` is the identity on
a bond list that never mentioned `p`. -/
theorem rewriteEndpoints_roundtrip (pairs : List (Nat × Nat)) (q p : Nat)
    (h : ∀ pr ∈ pairs, pr.1 ≠ p ∧ pr.2 ≠ p) :
    rewriteEndpoints (rewriteEndpoints pairs q p) p q = pairs := by
  unfold rewriteEndpoints
  rw [List.map_map]
  have hid : ∀ pr ∈ pairs, ((fun x =>
      if x.1 = p then (q, x.2) else if x.2 = p then (x.1, q) else x) ∘
      (fun x => if x.1 = q then (p, x.2) else if x.2 = q then (x.1, p) else x)) pr
      = id pr := by
    intro pr hpr
    obtain ⟨h1, h2⟩ := h pr hpr
    simp only [Function.comp_apply, id_eq]
    by_cases hq1 : pr.1 = q
    · simp only [if_pos hq1, if_pos rfl]
      rw [← hq1]
      exact Prod.mk.eta
    · simp only [if_neg hq1]
      by_cases hq2 : pr.2 = q
      · simp only [if_pos hq2, if_neg h1, if_pos rfl]
        rw [← hq2]
        exact Prod.mk.eta
      · simp only [if_neg hq2, if_neg h1, if_neg h2]
  rw [List.map_congr_left hid, List.map_id]

/-- Round trip of atom removal: on a state where the command fields match the
stored atom, no bond references the removed position, the uid table maps the
removed uid and some uid `w0` uniquely to the removed and the last position,
and the optional positions column is parallel (or absent with at least two
atoms), `RemoveAtomCommand::redo` followed by `undo` restores the exact
state. -/
theorem removeAtom_roundtrip (c : RemoveAtomCommand) (s : MoleculeState) (w0 : Nat)
    (hcount : 1 ≤ s.atomicNumbers.length)
    (hp : c.atomId < s.atomicNumbers.length)
    (hpos : s.positions3d.length = s.atomicNumbers.length ∨
      (s.positions3d = [] ∧ 2 ≤ s.atomicNumbers.length))
    (hbound : s.atomicNumbers.length < MaxIndex)
    (hz : c.atomicNumber = s.atomicNumbers.getD c.atomId 0)
    (hv : c.position3d = s.positions3d.getD c.atomId Vec3.zero)
    (huid : c.atomUid < s.atomUniqueIds.length)
    (huidv : s.atomUniqueIds.getD c.atomUid MaxIndex = c.atomId)
    (huidu : ∀ j < s.atomUniqueIds.length,
      s.atomUniqueIds.getD j MaxIndex = c.atomId → j = c.atomUid)
    (hw0 : w0 < s.atomUniqueIds.length)
    (hw0v : s.atomUniqueIds.getD w0 MaxIndex = s.atomicNumbers.length - 1)
    (hw0u : ∀ j < s.atomUniqueIds.length,
      s.atomUniqueIds.getD j MaxIndex = s.atomicNumbers.length - 1 → j = w0)
    (hbonds : ∀ pr ∈ s.bondPairs, pr.1 ≠ c.atomId ∧ pr.2 ≠ c.atomId) :
    c.undo (c.redo s) = s := by
  have hmax : MaxIndex = 18446744073709551615 := rfl
  by_cases hpl : c.atomId = s.atomicNumbers.length - 1
  · -- removed atom is the last one: no swap on either side
    have huideq : s.atomUniqueIds.set c.atomUid c.atomId = s.atomUniqueIds := by
      rw [← huidv]
      exact set_getD_self _ _ _ huid
    rcases hpos with hpar | ⟨habs, hn2⟩
    · have hstep1 : c.redo s =
          { s with
            atomicNumbers := s.atomicNumbers.take (s.atomicNumbers.length - 1),
            positions3d := s.positions3d.take (s.atomicNumbers.length - 1),
            atomUniqueIds := s.atomUniqueIds.set c.atomUid MaxIndex } := by
        unfold RemoveAtomCommand.redo MoleculeState.atomCount
        rw [if_neg (by omega), if_pos hpar]
      rw [hstep1]
      have hlent : (s.atomicNumbers.take (s.atomicNumbers.length - 1)).length
          = s.atomicNumbers.length - 1 := by
        simp only [List.length_take]
        omega
      have hlenpt : (s.positions3d.take (s.atomicNumbers.length - 1)).length
          = s.atomicNumbers.length - 1 := by
        simp only [List.length_take]
        omega
      have hc1 : (s.positions3d.take (s.atomicNumbers.length - 1)).length =
          (s.atomicNumbers.take (s.atomicNumbers.length - 1)).length := by
        rw [hlent, hlenpt]
      have hc2 : ¬ c.atomId ≠ (s.atomicNumbers.take (s.atomicNumbers.length - 1) ++
          [c.atomicNumber]).length - 1 := by
        simp only [List.length_append, hlent, List.length_cons, List.length_nil]
        omega
      have hstep2 : c.undo
          { s with
            atomicNumbers := s.atomicNumbers.take (s.atomicNumbers.length - 1),
            positions3d := s.positions3d.take (s.atomicNumbers.length - 1),
            atomUniqueIds := s.atomUniqueIds.set c.atomUid MaxIndex } =
          { s with
            atomicNumbers := s.atomicNumbers.take (s.atomicNumbers.length - 1) ++
              [c.atomicNumber],
            positions3d := s.positions3d.take (s.atomicNumbers.length - 1) ++
              [c.position3d],
            atomUniqueIds := (s.atomUniqueIds.set c.atomUid MaxIndex).set
              c.atomUid c.atomId } := by
        unfold RemoveAtomCommand.undo
        simp only
        rw [if_pos hc1, if_neg hc2]
      rw [hstep2, List.set_set, huideq, hz, hv, hpl]
      have h1 : s.atomicNumbers.take (s.atomicNumbers.length - 1) ++
          [s.atomicNumbers.getD (s.atomicNumbers.length - 1) 0] = s.atomicNumbers :=
        take_last_append _ _ (by omega)
      have h2 : s.positions3d.take (s.atomicNumbers.length - 1) ++
          [s.positions3d.getD (s.atomicNumbers.length - 1) Vec3.zero] =
          s.positions3d := by
        rw [← hpar]
        exact take_last_append _ _ (by omega)
      rw [h1, h2]
    · have hposne : ¬ s.positions3d.length = s.atomicNumbers.length := by
        rw [habs]
        simp only [List.length_nil]
        omega
      have hstep1 : c.redo s =
          { s with
            atomicNumbers := s.atomicNumbers.take (s.atomicNumbers.length - 1),
            atomUniqueIds := s.atomUniqueIds.set c.atomUid MaxIndex } := by
        unfold RemoveAtomCommand.redo MoleculeState.atomCount
        rw [if_neg (by omega), if_neg hposne]
      rw [hstep1]
      have hlent : (s.atomicNumbers.take (s.atomicNumbers.length - 1)).length
          = s.atomicNumbers.length - 1 := by
        simp only [List.length_take]
        omega
      have hc1 : ¬ s.positions3d.length =
          (s.atomicNumbers.take (s.atomicNumbers.length - 1)).length := by
        rw [hlent, habs]
        simp only [List.length_nil]
        omega
      have hc2 : ¬ c.atomId ≠ (s.atomicNumbers.take (s.atomicNumbers.length - 1) ++
          [c.atomicNumber]).length - 1 := by
        simp only [List.length_append, hlent, List.length_cons, List.length_nil]
        omega
      have hstep2 : c.undo
          { s with
            atomicNumbers := s.atomicNumbers.take (s.atomicNumbers.length - 1),
            atomUniqueIds := s.atomUniqueIds.set c.atomUid MaxIndex } =
          { s with
            atomicNumbers := s.atomicNumbers.take (s.atomicNumbers.length - 1) ++
              [c.atomicNumber],
            atomUniqueIds := (s.atomUniqueIds.set c.atomUid MaxIndex).set
              c.atomUid c.atomId } := by
        unfold RemoveAtomCommand.undo
        simp only
        rw [if_neg hc1, if_neg hc2]
      rw [hstep2, List.set_set, huideq, hz, hpl]
      rw [take_last_append _ _ (by omega)]
  · -- removed atom is not last: swap with the last atom in both directions
    have hplt : c.atomId < s.atomicNumbers.length - 1 := by omega
    have hn2 : 2 ≤ s.atomicNumbers.length := by omega
    have hw0uid : w0 ≠ c.atomUid := by
      intro h
      rw [h, huidv] at hw0v
      omega
    have hfind1 : findPos (fun v => v == s.atomicNumbers.length - 1)
        (s.atomUniqueIds.set c.atomUid MaxIndex) = some w0 := by
      apply findPos_eq_some_unique _ _ _ MaxIndex
      · simpa using hw0
      · rw [getD_set_ne _ _ _ _ _ (fun h => hw0uid h.symm), hw0v]
        simp
      · intro j hj hval
        simp only [List.length_set] at hj
        by_cases hjc : j = c.atomUid
        · rw [hjc, getD_set_self _ _ _ _ huid] at hval
          simp only [beq_iff_eq] at hval
          rw [hmax] at hval hbound
          omega
        · rw [getD_set_ne _ _ _ _ _ (fun h => hjc h.symm)] at hval
          simp only [beq_iff_eq] at hval
          exact hw0u j hj hval
    have hfind2 : findPos (fun v => v == c.atomId)
        ((s.atomUniqueIds.set c.atomUid MaxIndex).set w0 c.atomId) = some w0 := by
      apply findPos_eq_some_unique _ _ _ MaxIndex
      · simpa using hw0
      · rw [getD_set_self _ _ _ _ (by simpa using hw0)]
        simp
      · intro j hj hval
        simp only [List.length_set] at hj
        by_cases hjw : j = w0
        · exact hjw
        · rw [getD_set_ne _ _ _ _ _ (fun h => hjw h.symm)] at hval
          simp only [beq_iff_eq] at hval
          by_cases hjc : j = c.atomUid
          · rw [hjc, getD_set_self _ _ _ _ huid] at hval
            rw [hmax] at hval hbound
            omega
          · rw [getD_set_ne _ _ _ _ _ (fun h => hjc h.symm)] at hval
            exact absurd (huidu j hj hval) hjc
    have huidsEq : (((s.atomUniqueIds.set c.atomUid MaxIndex).set w0 c.atomId).set
        w0 (s.atomicNumbers.length - 1)).set c.atomUid c.atomId = s.atomUniqueIds := by
      rw [List.set_set]
      apply ext_of_getD _ _ MaxIndex (by simp)
      intro j hj
      simp only [List.length_set] at hj
      by_cases hjc : j = c.atomUid
      · rw [hjc, getD_set_self _ _ _ _ (by simpa using huid), huidv]
      · rw [getD_set_ne _ _ _ _ _ (fun h => hjc h.symm)]
        by_cases hjw : j = w0
        · rw [hjw, getD_set_self _ _ _ _ (by simpa using hw0), hw0v]
        · rw [getD_set_ne _ _ _ _ _ (fun h => hjw h.symm),
            getD_set_ne _ _ _ _ _ (fun h => hjc h.symm)]
    have hanEq : swapWithLast ((s.atomicNumbers.set c.atomId
        (s.atomicNumbers.getLastD 0)).take (s.atomicNumbers.length - 1) ++
        [c.atomicNumber]) c.atomId 0 = s.atomicNumbers := by
      rw [hz, getLastD_eq_getD]
      exact swap_restore _ _ _ hplt
    have hpairsEq : rewriteEndpoints (rewriteEndpoints s.bondPairs
        (s.atomicNumbers.length - 1) c.atomId) c.atomId
        (s.atomicNumbers.length - 1) = s.bondPairs :=
      rewriteEndpoints_roundtrip _ _ _ hbonds
    rcases hpos with hpar | ⟨habs, hn2b⟩
    · have hposEq : swapWithLast ((s.positions3d.set c.atomId
          (s.positions3d.getLastD Vec3.zero)).take (s.atomicNumbers.length - 1) ++
          [c.position3d]) c.atomId Vec3.zero = s.positions3d := by
        rw [hv, getLastD_eq_getD, ← hpar]
        exact swap_restore _ _ _ (by omega)
      have hsetpar : (s.positions3d.set c.atomId
          (s.positions3d.getLastD Vec3.zero)).length =
          (s.atomicNumbers.set c.atomId (s.atomicNumbers.getLastD 0)).length := by
        simp only [List.length_set]
        exact hpar
      have hstep1 : c.redo s =
          { s with
            atomicNumbers := (s.atomicNumbers.set c.atomId
              (s.atomicNumbers.getLastD 0)).take (s.atomicNumbers.length - 1),
            positions3d := (s.positions3d.set c.atomId
              (s.positions3d.getLastD Vec3.zero)).take (s.atomicNumbers.length - 1),
            bondPairs := rewriteEndpoints s.bondPairs
              (s.atomicNumbers.length - 1) c.atomId,
            atomUniqueIds := (s.atomUniqueIds.set c.atomUid MaxIndex).set
              w0 c.atomId } := by
        unfold RemoveAtomCommand.redo MoleculeState.atomCount
        rw [if_pos hpl, hfind1]
        simp only [Option.getD_some, if_pos hpar]
        rw [if_pos hsetpar]
      rw [hstep1]
      have hlent : ((s.atomicNumbers.set c.atomId
          (s.atomicNumbers.getLastD 0)).take (s.atomicNumbers.length - 1)).length
          = s.atomicNumbers.length - 1 := by
        simp only [List.length_take, List.length_set]
        omega
      have hlenpt : ((s.positions3d.set c.atomId
          (s.positions3d.getLastD Vec3.zero)).take (s.atomicNumbers.length - 1)).length
          = s.atomicNumbers.length - 1 := by
        simp only [List.length_take, List.length_set]
        omega
      have hc1 : ((s.positions3d.set c.atomId
          (s.positions3d.getLastD Vec3.zero)).take (s.atomicNumbers.length - 1)).length =
          ((s.atomicNumbers.set c.atomId
          (s.atomicNumbers.getLastD 0)).take (s.atomicNumbers.length - 1)).length := by
        rw [hlent, hlenpt]
      have hc2 : ((s.positions3d.set c.atomId
          (s.positions3d.getLastD Vec3.zero)).take (s.atomicNumbers.length - 1) ++
          [c.position3d]).length =
          ((s.atomicNumbers.set c.atomId
          (s.atomicNumbers.getLastD 0)).take (s.atomicNumbers.length - 1) ++
          [c.atomicNumber]).length := by
        simp only [List.length_append, hlent, hlenpt, List.length_cons,
          List.length_nil]
      have hc3 : c.atomId ≠ ((s.atomicNumbers.set c.atomId
          (s.atomicNumbers.getLastD 0)).take (s.atomicNumbers.length - 1) ++
          [c.atomicNumber]).length - 1 := by
        simp only [List.length_append, hlent, List.length_cons, List.length_nil]
        omega
      have harith : ((s.atomicNumbers.set c.atomId
          (s.atomicNumbers.getLastD 0)).take (s.atomicNumbers.length - 1) ++
          [c.atomicNumber]).length - 1 = s.atomicNumbers.length - 1 := by
        simp only [List.length_append, hlent, List.length_cons, List.length_nil]
        omega
      have hstep2 : c.undo
          { s with
            atomicNumbers := (s.atomicNumbers.set c.atomId
              (s.atomicNumbers.getLastD 0)).take (s.atomicNumbers.length - 1),
            positions3d := (s.positions3d.set c.atomId
              (s.positions3d.getLastD Vec3.zero)).take (s.atomicNumbers.length - 1),
            bondPairs := rewriteEndpoints s.bondPairs
              (s.atomicNumbers.length - 1) c.atomId,
            atomUniqueIds := (s.atomUniqueIds.set c.atomUid MaxIndex).set
              w0 c.atomId } =
          { s with
            atomicNumbers := swapWithLast ((s.atomicNumbers.set c.atomId
              (s.atomicNumbers.getLastD 0)).take (s.atomicNumbers.length - 1) ++
              [c.atomicNumber]) c.atomId 0,
            positions3d := swapWithLast ((s.positions3d.set c.atomId
              (s.positions3d.getLastD Vec3.zero)).take (s.atomicNumbers.length - 1) ++
              [c.position3d]) c.atomId Vec3.zero,
            bondPairs := rewriteEndpoints (rewriteEndpoints s.bondPairs
              (s.atomicNumbers.length - 1) c.atomId) c.atomId
              (s.atomicNumbers.length - 1),
            atomUniqueIds := (((s.atomUniqueIds.set c.atomUid MaxIndex).set
              w0 c.atomId).set w0 (s.atomicNumbers.length - 1)).set
              c.atomUid c.atomId } := by
        unfold RemoveAtomCommand.undo
        simp only
        rw [if_pos hc1, if_pos hc2, if_pos hc3, hfind2]
        simp only [Option.getD_some]
        rw [harith]
      rw [hstep2, hanEq, hposEq, hpairsEq, huidsEq]
    · have hposne : ¬ s.positions3d.length = s.atomicNumbers.length := by
        rw [habs]
        simp only [List.length_nil]
        omega
      have hsetne : ¬ s.positions3d.length =
          (s.atomicNumbers.set c.atomId (s.atomicNumbers.getLastD 0)).length := by
        simp only [List.length_set]
        exact hposne
      have hstep1 : c.redo s =
          { s with
            atomicNumbers := (s.atomicNumbers.set c.atomId
              (s.atomicNumbers.getLastD 0)).take (s.atomicNumbers.length - 1),
            bondPairs := rewriteEndpoints s.bondPairs
              (s.atomicNumbers.length - 1) c.atomId,
            atomUniqueIds := (s.atomUniqueIds.set c.atomUid MaxIndex).set
              w0 c.atomId } := by
        unfold RemoveAtomCommand.redo MoleculeState.atomCount
        rw [if_pos hpl, hfind1]
        simp only [Option.getD_some, if_neg hposne]
        rw [if_neg hsetne]
      rw [hstep1]
      have hlent : ((s.atomicNumbers.set c.atomId
          (s.atomicNumbers.getLastD 0)).take (s.atomicNumbers.length - 1)).length
          = s.atomicNumbers.length - 1 := by
        simp only [List.length_take, List.length_set]
        omega
      have hc1 : ¬ s.positions3d.length =
          ((s.atomicNumbers.set c.atomId
          (s.atomicNumbers.getLastD 0)).take (s.atomicNumbers.length - 1)).length := by
        rw [hlent, habs]
        simp only [List.length_nil]
        omega
      have hc2 : c.atomId ≠ ((s.atomicNumbers.set c.atomId
          (s.atomicNumbers.getLastD 0)).take (s.atomicNumbers.length - 1) ++
          [c.atomicNumber]).length - 1 := by
        simp only [List.length_append, hlent, List.length_cons, List.length_nil]
        omega
      have hc3 : ¬ s.positions3d.length =
          ((s.atomicNumbers.set c.atomId
          (s.atomicNumbers.getLastD 0)).take (s.atomicNumbers.length - 1) ++
          [c.atomicNumber]).length := by
        rw [habs]
        simp only [List.length_nil, List.length_append, hlent, List.length_cons]
        omega
      have harith : ((s.atomicNumbers.set c.atomId
          (s.atomicNumbers.getLastD 0)).take (s.atomicNumbers.length - 1) ++
          [c.atomicNumber]).length - 1 = s.atomicNumbers.length - 1 := by
        simp only [List.length_append, hlent, List.length_cons, List.length_nil]
        omega
      have hstep2 : c.undo
          { s with
            atomicNumbers := (s.atomicNumbers.set c.atomId
              (s.atomicNumbers.getLastD 0)).take (s.atomicNumbers.length - 1),
            bondPairs := rewriteEndpoints s.bondPairs
              (s.atomicNumbers.length - 1) c.atomId,
            atomUniqueIds := (s.atomUniqueIds.set c.atomUid MaxIndex).set
              w0 c.atomId } =
          { s with
            atomicNumbers := swapWithLast ((s.atomicNumbers.set c.atomId
              (s.atomicNumbers.getLastD 0)).take (s.atomicNumbers.length - 1) ++
              [c.atomicNumber]) c.atomId 0,
            bondPairs := rewriteEndpoints (rewriteEndpoints s.bondPairs
              (s.atomicNumbers.length - 1) c.atomId) c.atomId
              (s.atomicNumbers.length - 1),
            atomUniqueIds := (((s.atomUniqueIds.set c.atomUid MaxIndex).set
              w0 c.atomId).set w0 (s.atomicNumbers.length - 1)).set
              c.atomUid c.atomId } := by
        unfold RemoveAtomCommand.undo
        simp only
        rw [if_neg hc1, if_pos hc2, if_neg hc3, hfind2]
        simp only [Option.getD_some]
        rw [harith]
      rw [hstep2, hanEq, hpairsEq, huidsEq]

/-- Round trip of the single-slot atomic-number attribute set. -/
theorem setAtomicNumber_roundtrip (c : SetAtomicNumberCommand) (s : MoleculeState)
    (hp : c.atomId < s.atomicNumbers.length)
    (hold : c.oldAtomicNumber = s.atomicNumbers.getD c.atomId 0) :
    c.undo (c.redo s) = s := by
  unfold SetAtomicNumberCommand.undo SetAtomicNumberCommand.redo
  simp only
  rw [List.set_set, hold, set_getD_self _ _ _ hp]

/-- Bond-removal redo followed by undo restores the bond-pair and bond-order
column lengths and re-adds the captured pair (normalized) and order at the
last position, but the bond uid table grows by one slot: the undo allocates a
fresh UniqueId instead of restoring the old one. -/
theorem removeBond_partial (c : RemoveBondCommand) (s : MoleculeState)
    (hb : c.bondId < s.bondPairs.length)
    (horders : s.bondOrders.length = s.bondPairs.length) :
    (c.undo (c.redo s)).bondPairs.length = s.bondPairs.length ∧
    (c.undo (c.redo s)).bondOrders.length = s.bondOrders.length ∧
    (c.undo (c.redo s)).bondPairs.getLastD (0, 0) =
      makeBondPair c.bondPair.1 c.bondPair.2 ∧
    (c.undo (c.redo s)).bondOrders.getLastD 0 = c.bondOrder ∧
    (c.undo (c.redo s)).bondUniqueIds.length = s.bondUniqueIds.length + 1 := by
  unfold RemoveBondCommand.undo RemoveBondCommand.redo MoleculeState.addBond
    MoleculeState.removeBond
  simp only
  by_cases hil : c.bondId ≠ s.bondPairs.length - 1
  · rw [if_pos hil]
    simp only
    have hl1 : ((s.bondPairs.set c.bondId (s.bondPairs.getLastD (0, 0))).take
        (s.bondPairs.length - 1)).length = s.bondPairs.length - 1 := by
      simp only [List.length_take, List.length_set]
      omega
    have hl2 : ((s.bondOrders.set c.bondId (s.bondOrders.getLastD 0)).take
        (s.bondPairs.length - 1)).length = s.bondPairs.length - 1 := by
      simp only [List.length_take, List.length_set]
      omega
    refine ⟨?_, ?_, ?_, ?_, ?_⟩
    · simp only [List.length_append, hl1, List.length_cons, List.length_nil]
      omega
    · simp only [List.length_append, hl2, List.length_cons, List.length_nil, horders]
      omega
    · rw [getLastD_eq_getD]
      apply getD_append_at
      simp only [List.length_append, hl1, List.length_cons, List.length_nil]
      omega
    · rw [getLastD_eq_getD]
      apply getD_append_at
      simp only [List.length_append, hl2, List.length_cons, List.length_nil]
      omega
    · simp only [List.length_append, List.length_set, List.length_cons,
        List.length_nil]
  · rw [if_neg hil]
    have hl1 : (s.bondPairs.take (s.bondPairs.length - 1)).length =
        s.bondPairs.length - 1 := by
      simp only [List.length_take]
      omega
    have hl2 : (s.bondOrders.take (s.bondPairs.length - 1)).length =
        s.bondPairs.length - 1 := by
      simp only [List.length_take]
      omega
    refine ⟨?_, ?_, ?_, ?_, ?_⟩
    · simp only [List.length_append, hl1, List.length_cons, List.length_nil]
      omega
    · simp only [List.length_append, hl2, List.length_cons, List.length_nil, horders]
      omega
    · rw [getLastD_eq_getD]
      apply getD_append_at
      simp only [List.length_append, hl1, List.length_cons, List.length_nil]
      omega
    · rw [getLastD_eq_getD]
      apply getD_append_at
      simp only [List.length_append, hl2, List.length_cons, List.length_nil]
      omega
    · simp only [List.length_append, List.length_set, List.length_cons,
        List.length_nil]

/-- C1 counterexample: a molecule with one bond; `RemoveBondCommand::redo`
followed by `undo` leaves the bond-UniqueId table at length 2 (the removed
bond's uid stays invalidated and a fresh uid slot is allocated by
`Molecule::addBond`), so the array lengths and the UniqueId-to-position
mapping are not restored. -/
theorem C1_counterexample :
    (RemoveBondCommand.undo ⟨0, 0, (0, 1), 1⟩
        (RemoveBondCommand.redo ⟨0, 0, (0, 1), 1⟩
          { atomicNumbers := [6, 6], positions3d := [⟨0, 0, 0⟩, ⟨1, 0, 0⟩],
            hybridizations := [], formalCharges := [], colors := [],
            forceVectors := [], atomUniqueIds := [0, 1], bondPairs := [(0, 1)],
            bondOrders := [1],
            bondUniqueIds := [0] })).bondUniqueIds.length ≠
      ({ atomicNumbers := [6, 6], positions3d := [⟨0, 0, 0⟩, ⟨1, 0, 0⟩],
          hybridizations := [], formalCharges := [], colors := [],
          forceVectors := [], atomUniqueIds := [0, 1], bondPairs := [(0, 1)],
          bondOrders := [1],
          bondUniqueIds := [0] } : MoleculeState).bondUniqueIds.length := by
  decide

/-- C1 amended: atom removal (with parallel positions, or absent positions and
at least two atoms) and attribute set are exact round trips; bond removal
restores the bond-pair and bond-order columns' lengths and re-adds the
captured endpoints and order at the last position, but allocates a fresh
UniqueId on undo — its uid table ends one slot longer instead of being
restored. -/
theorem C1_amended_roundtrip (s : MoleculeState) (c : RemoveAtomCommand) (w0 : Nat)
    (c2 : SetAtomicNumberCommand) (c3 : RemoveBondCommand)
    (hcount : 1 ≤ s.atomicNumbers.length)
    (hp : c.atomId < s.atomicNumbers.length)
    (hpos : s.positions3d.length = s.atomicNumbers.length ∨
      (s.positions3d = [] ∧ 2 ≤ s.atomicNumbers.length))
    (hbound : s.atomicNumbers.length < MaxIndex)
    (hz : c.atomicNumber = s.atomicNumbers.getD c.atomId 0)
    (hv : c.position3d = s.positions3d.getD c.atomId Vec3.zero)
    (huid : c.atomUid < s.atomUniqueIds.length)
    (huidv : s.atomUniqueIds.getD c.atomUid MaxIndex = c.atomId)
    (huidu : ∀ j < s.atomUniqueIds.length,
      s.atomUniqueIds.getD j MaxIndex = c.atomId → j = c.atomUid)
    (hw0 : w0 < s.atomUniqueIds.length)
    (hw0v : s.atomUniqueIds.getD w0 MaxIndex = s.atomicNumbers.length - 1)
    (hw0u : ∀ j < s.atomUniqueIds.length,
      s.atomUniqueIds.getD j MaxIndex = s.atomicNumbers.length - 1 → j = w0)
    (hbonds : ∀ pr ∈ s.bondPairs, pr.1 ≠ c.atomId ∧ pr.2 ≠ c.atomId)
    (hp2 : c2.atomId < s.atomicNumbers.length)
    (hold : c2.oldAtomicNumber = s.atomicNumbers.getD c2.atomId 0)
    (hb : c3.bondId < s.bondPairs.length)
    (horders : s.bondOrders.length = s.bondPairs.length) :
    c.undo (c.redo s) = s ∧
    c2.undo (c2.redo s) = s ∧
    ((c3.undo (c3.redo s)).bondPairs.length = s.bondPairs.length ∧
      (c3.undo (c3.redo s)).bondOrders.length = s.bondOrders.length ∧
      (c3.undo (c3.redo s)).bondPairs.getLastD (0, 0) =
        makeBondPair c3.bondPair.1 c3.bondPair.2 ∧
      (c3.undo (c3.redo s)).bondOrders.getLastD 0 = c3.bondOrder ∧
      (c3.undo (c3.redo s)).bondUniqueIds.length = s.bondUniqueIds.length + 1) :=
  ⟨removeAtom_roundtrip c s w0 hcount hp hpos hbound hz hv huid huidv huidu
      hw0 hw0v hw0u hbonds,
    setAtomicNumber_roundtrip c2 s hp2 hold,
    removeBond_partial c3 s hb horders⟩

/-- C1 witness: three atoms with bond `(1,2)`; removing atom 0 and undoing,
setting atom 1's atomic number and undoing, and removing bond 0 and
undoing. -/
theorem C1_amended_roundtrip_witness :
    RemoveAtomCommand.undo ⟨0, 0, 6, ⟨0, 0, 0⟩⟩
        (RemoveAtomCommand.redo ⟨0, 0, 6, ⟨0, 0, 0⟩⟩
          (MoleculeState.mk [6, 7, 8] [⟨0, 0, 0⟩, ⟨1, 0, 0⟩, ⟨2, 0, 0⟩] [] [] [] []
            [0, 1, 2] [(1, 2)] [1] [0])) =
      MoleculeState.mk [6, 7, 8] [⟨0, 0, 0⟩, ⟨1, 0, 0⟩, ⟨2, 0, 0⟩] [] [] [] []
        [0, 1, 2] [(1, 2)] [1] [0] ∧
    SetAtomicNumberCommand.undo ⟨1, 7, 99⟩
        (SetAtomicNumberCommand.redo ⟨1, 7, 99⟩
          (MoleculeState.mk [6, 7, 8] [⟨0, 0, 0⟩, ⟨1, 0, 0⟩, ⟨2, 0, 0⟩] [] [] [] []
            [0, 1, 2] [(1, 2)] [1] [0])) =
      MoleculeState.mk [6, 7, 8] [⟨0, 0, 0⟩, ⟨1, 0, 0⟩, ⟨2, 0, 0⟩] [] [] [] []
        [0, 1, 2] [(1, 2)] [1] [0] ∧
    ((RemoveBondCommand.undo ⟨0, 0, (1, 2), 1⟩
        (RemoveBondCommand.redo ⟨0, 0, (1, 2), 1⟩
          (MoleculeState.mk [6, 7, 8] [⟨0, 0, 0⟩, ⟨1, 0, 0⟩, ⟨2, 0, 0⟩] [] [] [] []
            [0, 1, 2] [(1, 2)] [1] [0]))).bondPairs.length =
      (MoleculeState.mk [6, 7, 8] [⟨0, 0, 0⟩, ⟨1, 0, 0⟩, ⟨2, 0, 0⟩] [] [] [] []
        [0, 1, 2] [(1, 2)] [1] [0]).bondPairs.length ∧
    (RemoveBondCommand.undo ⟨0, 0, (1, 2), 1⟩
        (RemoveBondCommand.redo ⟨0, 0, (1, 2), 1⟩
          (MoleculeState.mk [6, 7, 8] [⟨0, 0, 0⟩, ⟨1, 0, 0⟩, ⟨2, 0, 0⟩] [] [] [] []
            [0, 1, 2] [(1, 2)] [1] [0]))).bondOrders.length =
      (MoleculeState.mk [6, 7, 8] [⟨0, 0, 0⟩, ⟨1, 0, 0⟩, ⟨2, 0, 0⟩] [] [] [] []
        [0, 1, 2] [(1, 2)] [1] [0]).bondOrders.length ∧
    (RemoveBondCommand.undo ⟨0, 0, (1, 2), 1⟩
        (RemoveBondCommand.redo ⟨0, 0, (1, 2), 1⟩
          (MoleculeState.mk [6, 7, 8] [⟨0, 0, 0⟩, ⟨1, 0, 0⟩, ⟨2, 0, 0⟩] [] [] [] []
            [0, 1, 2] [(1, 2)] [1] [0]))).bondPairs.getLastD (0, 0) =
      makeBondPair 1 2 ∧
    (RemoveBondCommand.undo ⟨0, 0, (1, 2), 1⟩
        (RemoveBondCommand.redo ⟨0, 0, (1, 2), 1⟩
          (MoleculeState.mk [6, 7, 8] [⟨0, 0, 0⟩, ⟨1, 0, 0⟩, ⟨2, 0, 0⟩] [] [] [] []
            [0, 1, 2] [(1, 2)] [1] [0]))).bondOrders.getLastD 0 = 1 ∧
    (RemoveBondCommand.undo ⟨0, 0, (1, 2), 1⟩
        (RemoveBondCommand.redo ⟨0, 0, (1, 2), 1⟩
          (MoleculeState.mk [6, 7, 8] [⟨0, 0, 0⟩, ⟨1, 0, 0⟩, ⟨2, 0, 0⟩] [] [] [] []
            [0, 1, 2] [(1, 2)] [1] [0]))).bondUniqueIds.length =
      (MoleculeState.mk [6, 7, 8] [⟨0, 0, 0⟩, ⟨1, 0, 0⟩, ⟨2, 0, 0⟩] [] [] [] []
        [0, 1, 2] [(1, 2)] [1] [0]).bondUniqueIds.length + 1) :=
  C1_amended_roundtrip
    (MoleculeState.mk [6, 7, 8] [⟨0, 0, 0⟩, ⟨1, 0, 0⟩, ⟨2, 0, 0⟩] [] [] [] []
      [0, 1, 2] [(1, 2)] [1] [0])
    ⟨0, 0, 6, ⟨0, 0, 0⟩⟩ 2 ⟨1, 7, 99⟩ ⟨0, 0, (1, 2), 1⟩
    (by decide) (by decide) (by decide) (by decide) (by decide) (by decide)
    (by decide) (by decide) (by decide) (by decide) (by decide) (by decide)
    (by decide) (by decide) (by decide) (by decide) (by decide)
